import Mathlib

/-!
# IMAGEHLP loaded-image registry (`dlls/imagehlp/access.c`)

A shallow embedding of the loaded-image list kept by `MapAndLoad` and
`ImageUnload`, of the header navigation done by `ImageNtHeader` and of the
stubbed address translators `ImageRvaToSection` / `ImageRvaToVa`.

Conventions of the embedding.

* A pointer is a natural number, `0` is `NULL`.
* The list threads through the `Links` member embedded in each
  `LOADED_IMAGE`.  A `LIST_ENTRY *` is therefore the address of a record plus
  the byte offset of `Links` inside `LOADED_IMAGE`.  The structure declaration
  (`imagehlp.h`) is not among the sources, so that offset is the parameter
  `off` of every list operation.  The initialiser of
  `IMAGEHLP_EmptyLoadedImage` shows ten members in front of `Links`; on i386
  the offset is 36.
* A load or store through a pointer that does not address a live object is
  undefined behaviour in C; the embedding reports it as
  `Fault.accessViolation`.
* The `while` loop of `ImageUnload` is unbounded; the embedding runs it with
  fuel and reports exhaustion as `Fault.outOfFuel`.
* Header fields are read from a byte-addressed little-endian memory; pointer
  arithmetic on the mapped view is 32 bit (`ptrAdd`).
-/

set_option linter.unusedVariables false

namespace Imagehlp

/-! ## Data model -/

/-- Ways a run of the embedding can end without a C return value. -/
inductive Fault where
  | accessViolation
  | outOfFuel
  deriving DecidableEq, Repr

/-- The `LIST_ENTRY` of `winnt.h`: two `LIST_ENTRY *`. -/
structure LIST_ENTRY where
  Flink : Nat
  Blink : Nat
  deriving DecidableEq, Repr

/-- The `LOADED_IMAGE` record, members in the order of the initialiser of
`IMAGEHLP_EmptyLoadedImage`.  `ModuleName` holds the contents of the owned
string the member points at. -/
structure LOADED_IMAGE where
  ModuleName : String
  hFile : Nat
  MappedAddress : Nat
  FileHeader : Nat
  LastRvaSection : Nat
  NumberOfSections : Nat
  Sections : Nat
  Characteristics : Nat
  fSystemImage : Bool
  fDOSImage : Bool
  Links : LIST_ENTRY
  SizeOfImage : Nat
  deriving DecidableEq, Repr

/-- The mutable state the functions of `access.c` work on: the two static
pointers, the live `LOADED_IMAGE` objects (by record address) and the thread's
last-error value. -/
structure Registry where
  IMAGEHLP_pFirstLoadedImage : Nat
  IMAGEHLP_pLastLoadedImage : Nat
  heap : Nat → Option LOADED_IMAGE
  lastError : Nat

/-- State at program start: both static pointers are initialised to `NULL` and
no record has been allocated. -/
def emptyRegistry : Registry :=
  { IMAGEHLP_pFirstLoadedImage := 0
    IMAGEHLP_pLastLoadedImage := 0
    heap := fun _ => none
    lastError := 0 }

/-- Modelled from the spec: `winerror.h` is not among the sources; value of
`ERROR_FILE_NOT_FOUND`. -/
def ERROR_FILE_NOT_FOUND : Nat := 2

/-- Modelled from the spec: `winerror.h` is not among the sources; value of
`ERROR_INVALID_PARAMETER`. -/
def ERROR_INVALID_PARAMETER : Nat := 87

/-- Modelled from the spec: `winerror.h` is not among the sources; value of
`ERROR_CALL_NOT_IMPLEMENTED`. -/
def ERROR_CALL_NOT_IMPLEMENTED : Nat := 120

/-! ## Pointers into the heap of records -/

/-- The expression `CONTAINING_RECORD(p, LOADED_IMAGE, Links)`: from the address of
a `Links` member back to the record.  The address of a `Links` member is never
below `off`; for `&((PLOADED_IMAGE) NULL)->Links`, which is `off`, the result
is `NULL`. -/
def CONTAINING_RECORD (off p : Nat) : Nat := p - off

/-- Store `v` at address `a`. -/
def store (heap : Nat → Option LOADED_IMAGE) (a : Nat) (v : LOADED_IMAGE) :
    Nat → Option LOADED_IMAGE :=
  fun x => if x = a then some v else heap x

/-- Load the record whose `Links` member lives at `l` (a `LIST_ENTRY *`). -/
def readLinks (off : Nat) (heap : Nat → Option LOADED_IMAGE) (l : Nat) :
    Except Fault LOADED_IMAGE :=
  if off ≤ l then
    match heap (l - off) with
    | some r => .ok r
    | none => .error .accessViolation
  else .error .accessViolation

/-- The assignment `l->Flink = v` through a `LIST_ENTRY *`. -/
def writeFlink (off : Nat) (heap : Nat → Option LOADED_IMAGE) (l v : Nat) :
    Except Fault (Nat → Option LOADED_IMAGE) := do
  let r ← readLinks off heap l
  pure (store heap (l - off) { r with Links := { r.Links with Flink := v } })

/-- The assignment `l->Blink = v` through a `LIST_ENTRY *`. -/
def writeBlink (off : Nat) (heap : Nat → Option LOADED_IMAGE) (l v : Nat) :
    Except Fault (Nat → Option LOADED_IMAGE) := do
  let r ← readLinks off heap l
  pure (store heap (l - off) { r with Links := { r.Links with Blink := v } })

/-! ## `ImageUnload` -/

/-- The loop `while((pCurrent != pFind) && (pCurrent != NULL)) pCurrent =
pCurrent->Flink;` of `ImageUnload`; the result is the final `pCurrent`. -/
def ImageUnload.scan (off : Nat) (heap : Nat → Option LOADED_IMAGE) (pFind : Nat) :
    Nat → Nat → Except Fault Nat
  | 0, _ => .error .outOfFuel
  | fuel + 1, pCurrent =>
    if pCurrent ≠ pFind ∧ pCurrent ≠ 0 then do
      let r ← readLinks off heap pCurrent
      ImageUnload.scan off heap pFind fuel r.Links.Flink
    else .ok pCurrent

/-- The statement `if(pCurrent->Blink) pCurrent->Blink->Flink = pCurrent->Flink;
else IMAGEHLP_pFirstLoadedImage = pCurrent->Flink ? CONTAINING_RECORD(...) : NULL;`
of `ImageUnload`. -/
def ImageUnload.relinkPrevious (off : Nat) (s : Registry) (pCurrent : Nat) :
    Except Fault Registry := do
  let c ← readLinks off s.heap pCurrent
  if c.Links.Blink ≠ 0 then do
    let h ← writeFlink off s.heap c.Links.Blink c.Links.Flink
    pure { s with heap := h }
  else
    pure { s with IMAGEHLP_pFirstLoadedImage :=
             if c.Links.Flink ≠ 0 then CONTAINING_RECORD off c.Links.Flink else 0 }

/-- The statement `if(pCurrent->Flink) pCurrent->Flink->Blink = pCurrent->Blink;
else IMAGEHLP_pLastLoadedImage = pCurrent->Blink ? CONTAINING_RECORD(...) : NULL;`
of `ImageUnload`. -/
def ImageUnload.relinkNext (off : Nat) (s : Registry) (pCurrent : Nat) :
    Except Fault Registry := do
  let c ← readLinks off s.heap pCurrent
  if c.Links.Flink ≠ 0 then do
    let h ← writeBlink off s.heap c.Links.Flink c.Links.Blink
    pure { s with heap := h }
  else
    pure { s with IMAGEHLP_pLastLoadedImage :=
             if c.Links.Blink ≠ 0 then CONTAINING_RECORD off c.Links.Blink else 0 }

/-- Embedding of `ImageUnload(pLoadedImage)`: the new state and the returned
`BOOL`. -/
def ImageUnload (off fuel : Nat) (s : Registry) (pLoadedImage : Nat) :
    Except Fault (Registry × Bool) :=
  if s.IMAGEHLP_pFirstLoadedImage = 0 ∨ pLoadedImage = 0 then
    .ok ({ s with lastError := ERROR_INVALID_PARAMETER }, false)
  else do
    let pFind := pLoadedImage + off
    let pCurrent ← ImageUnload.scan off s.heap pFind fuel (s.IMAGEHLP_pFirstLoadedImage + off)
    if pCurrent = 0 then
      pure ({ s with lastError := ERROR_INVALID_PARAMETER }, false)
    else do
      let s1 ← ImageUnload.relinkPrevious off s pCurrent
      let s2 ← ImageUnload.relinkNext off s1 pCurrent
      pure (s2, false)

/-! ## Header navigation -/

/-- Pointer addition on the 32-bit target. -/
def ptrAdd (p n : Nat) : Nat := (p + n) % 2 ^ 32

/-- Read one byte of the mapped view. -/
def readBYTE (mem : Nat → Option Nat) (a : Nat) : Except Fault Nat :=
  match mem a with
  | some b => .ok (b % 256)
  | none => .error .accessViolation

/-- Read a little-endian `WORD`. -/
def readWORD (mem : Nat → Option Nat) (a : Nat) : Except Fault Nat := do
  let b0 ← readBYTE mem a
  let b1 ← readBYTE mem (ptrAdd a 1)
  pure (b0 + 256 * b1)

/-- Read a little-endian `DWORD`. -/
def readDWORD (mem : Nat → Option Nat) (a : Nat) : Except Fault Nat := do
  let w0 ← readWORD mem a
  let w1 ← readWORD mem (ptrAdd a 2)
  pure (w0 + 65536 * w1)

/-- Modelled from the spec: `winnt.h` is not among the sources; byte offset of
`e_lfanew` in `IMAGE_DOS_HEADER`. -/
def OFFSET_e_lfanew : Nat := 60

/-- Modelled from the spec: `winnt.h` is not among the sources; byte offset of
`FileHeader.NumberOfSections` in `IMAGE_NT_HEADERS` (4-byte signature, then the
file header). -/
def OFFSET_NumberOfSections : Nat := 6

/-- Modelled from the spec: `winnt.h` is not among the sources; byte offset of
`FileHeader.SizeOfOptionalHeader` in `IMAGE_NT_HEADERS`. -/
def OFFSET_SizeOfOptionalHeader : Nat := 20

/-- Modelled from the spec: `winnt.h` is not among the sources; byte offset of
`FileHeader.Characteristics` in `IMAGE_NT_HEADERS`. -/
def OFFSET_Characteristics : Nat := 22

/-- Modelled from the spec: `winnt.h` is not among the sources; byte offset of
`OptionalHeader` in `IMAGE_NT_HEADERS` (signature 4 + file header 20). -/
def OFFSET_OptionalHeader : Nat := 24

/-- Modelled from the spec: `winnt.h` is not among the sources; byte offset of
`OptionalHeader.SizeOfImage` in `IMAGE_NT_HEADERS` (24 + 56). -/
def OFFSET_SizeOfImage : Nat := 80

/-- Modelled from the spec: `winnt.h` is not among the sources;
`sizeof(IMAGE_NT_HEADERS)` (4 + 20 + 224). -/
def SIZEOF_IMAGE_NT_HEADERS : Nat := 248

/-- Embedding of `ImageNtHeader(Base)`:
`(LPBYTE) Base + ((PIMAGE_DOS_HEADER) Base)->e_lfanew`.  `e_lfanew` is a signed
`LONG`; adding its two's-complement bit pattern modulo `2 ^ 32` is the same
pointer. -/
def ImageNtHeader (mem : Nat → Option Nat) (Base : Nat) : Except Fault Nat := do
  let e_lfanew ← readDWORD mem (ptrAdd Base OFFSET_e_lfanew)
  pure (ptrAdd Base e_lfanew)

/-- Embedding of the stub `ImageRvaToSection`: sets the last error and returns
`NULL`. -/
def ImageRvaToSection (s : Registry) (NtHeaders Base Rva : Nat) : Registry × Nat :=
  ({ s with lastError := ERROR_CALL_NOT_IMPLEMENTED }, 0)

/-- Embedding of the stub `ImageRvaToVa`: sets the last error and returns
`NULL`. -/
def ImageRvaToVa (s : Registry) (NtHeaders Base Rva LastRvaSection : Nat) : Registry × Nat :=
  ({ s with lastError := ERROR_CALL_NOT_IMPLEMENTED }, 0)

/-! ## `MapAndLoad` -/

/-- What the external collaborators answer during one call of `MapAndLoad`. -/
structure Env where
  /-- Handle returned by `CreateFileA`, `0` when it fails. -/
  CreateFileA : Nat
  /-- Handle returned by `CreateFileMappingA`, `0` when it fails. -/
  CreateFileMappingA : Nat
  /-- Value of `GetLastError()` after `CreateFileMappingA`. -/
  mappingError : Nat
  /-- Base address returned by `MapViewOfFile`, `0` when it fails. -/
  MapViewOfFile : Nat
  /-- Value of `GetLastError()` after `MapViewOfFile`. -/
  viewError : Nat
  /-- Address returned by `HeapAlloc`. -/
  HeapAlloc : Nat
  /-- Readable bytes of the address space once the view is mapped. -/
  mem : Nat → Option Nat

/-- A release of an operating-system resource. -/
inductive Release where
  | CloseHandle (h : Nat)
  | UnmapViewOfFile (p : Nat)
  deriving DecidableEq, Repr

/-- Outcome of `MapAndLoad`: new state, returned `BOOL`, and the releases it
performed, in program order. -/
structure MapAndLoadResult where
  registry : Registry
  ret : Bool
  released : List Release

/-- The block at label `Error:` of `MapAndLoad`. -/
def MapAndLoad.Error (s : Registry) (hModule hFileMapping hFile : Nat)
    (released : List Release) : MapAndLoadResult :=
  let released := if hModule ≠ 0 then released ++ [Release.UnmapViewOfFile hModule] else released
  let released := if hFileMapping ≠ 0 then released ++ [Release.CloseHandle hFileMapping] else released
  let released := if hFile ≠ 0 then released ++ [Release.CloseHandle hFile] else released
  { registry := s, ret := false, released := released }

/-- `HEAP_strdupA`: a fresh copy with the contents of its argument. -/
def HEAP_strdupA (str : String) : String := str

/-- The assignments of `MapAndLoad` that fill the freshly allocated record,
from `pNtHeader = ImageNtHeader((PVOID) hModule)` to
`pLoadedImage->Links.Blink = &IMAGEHLP_pLastLoadedImage->Links`.  The result is
the contents of `*pLoadedImage`.  `&IMAGEHLP_pLastLoadedImage->Links` is the
tail pointer plus the offset of `Links`, whether or not the tail pointer is
`NULL`. -/
def MapAndLoad.populate (off : Nat) (mem : Nat → Option Nat) (s : Registry)
    (pszDllPath : String) (hFile hModule pLoadedImage : Nat) : Except Fault LOADED_IMAGE := do
  let pNtHeader ← ImageNtHeader mem hModule
  if pLoadedImage = 0 then throw Fault.accessViolation
  let SizeOfOptionalHeader ← readWORD mem (ptrAdd pNtHeader OFFSET_SizeOfOptionalHeader)
  let Sections := ptrAdd (ptrAdd pNtHeader OFFSET_OptionalHeader) SizeOfOptionalHeader
  let NumberOfSections ← readWORD mem (ptrAdd pNtHeader OFFSET_NumberOfSections)
  let SizeOfImage ← readDWORD mem (ptrAdd pNtHeader OFFSET_SizeOfImage)
  let Characteristics ← readWORD mem (ptrAdd pNtHeader OFFSET_Characteristics)
  pure
    { ModuleName := HEAP_strdupA pszDllPath
      hFile := hFile
      MappedAddress := hModule
      FileHeader := pNtHeader
      LastRvaSection := Sections
      NumberOfSections := NumberOfSections
      Sections := Sections
      Characteristics := Characteristics
      fSystemImage := false
      fDOSImage := false
      Links := { Flink := 0, Blink := s.IMAGEHLP_pLastLoadedImage + off }
      SizeOfImage := SizeOfImage }

/-- The statements of `MapAndLoad` from `if(IMAGEHLP_pLastLoadedImage)` to the
assignment of `IMAGEHLP_pFirstLoadedImage`; `heap1` is the heap with
`*pLoadedImage` filled in. -/
def MapAndLoad.append (off : Nat) (s : Registry) (heap1 : Nat → Option LOADED_IMAGE)
    (pLoadedImage : Nat) : Except Fault Registry := do
  let heap2 ←
    if s.IMAGEHLP_pLastLoadedImage ≠ 0 then
      writeFlink off heap1 (s.IMAGEHLP_pLastLoadedImage + off) (pLoadedImage + off)
    else pure heap1
  let s1 := { s with heap := heap2, IMAGEHLP_pLastLoadedImage := pLoadedImage }
  if s1.IMAGEHLP_pFirstLoadedImage = 0 then
    pure { s1 with IMAGEHLP_pFirstLoadedImage := pLoadedImage }
  else pure s1

/-- Embedding of `MapAndLoad(pszImageName, pszDllPath, pLoadedImage, bDotDll,
bReadOnly)`.  The parameter `pLoadedImage` is overwritten by the result of
`HeapAlloc` before it is used. -/
def MapAndLoad (off : Nat) (env : Env) (s : Registry) (pszImageName pszDllPath : String)
    (pLoadedImage : Nat) (bDotDll bReadOnly : Bool) : Except Fault MapAndLoadResult :=
  let hFile := env.CreateFileA
  if hFile = 0 then
    .ok (MapAndLoad.Error { s with lastError := ERROR_FILE_NOT_FOUND } 0 0 hFile [])
  else
    let hFileMapping := env.CreateFileMappingA
    if hFileMapping = 0 then
      .ok (MapAndLoad.Error { s with lastError := env.mappingError } 0 hFileMapping hFile [])
    else
      let released := [Release.CloseHandle hFile]
      let hFile := 0
      let hModule := env.MapViewOfFile
      if hModule = 0 then
        .ok (MapAndLoad.Error { s with lastError := env.viewError } hModule hFileMapping hFile
          released)
      else
        let released := released ++ [Release.CloseHandle hFileMapping]
        let pLoadedImage := env.HeapAlloc
        do
          let image ← MapAndLoad.populate off env.mem s pszDllPath hFile hModule pLoadedImage
          let s2 ← MapAndLoad.append off s (store s.heap pLoadedImage image) pLoadedImage
          pure { registry := s2, ret := true, released := released }

/-! ## Observations on the list -/

/-- Follow `Flink` from the `LIST_ENTRY *` `l` until `NULL`, collecting the
records passed. -/
def walkFlink (off : Nat) (heap : Nat → Option LOADED_IMAGE) : Nat → Nat → Except Fault (List Nat)
  | 0, _ => .error .outOfFuel
  | fuel + 1, l =>
    if l = 0 then .ok []
    else do
      let r ← readLinks off heap l
      let rest ← walkFlink off heap fuel r.Links.Flink
      pure (CONTAINING_RECORD off l :: rest)

/-- Follow `Blink` from the `LIST_ENTRY *` `l` until `NULL`, collecting the
records passed. -/
def walkBlink (off : Nat) (heap : Nat → Option LOADED_IMAGE) : Nat → Nat → Except Fault (List Nat)
  | 0, _ => .error .outOfFuel
  | fuel + 1, l =>
    if l = 0 then .ok []
    else do
      let r ← readLinks off heap l
      let rest ← walkBlink off heap fuel r.Links.Blink
      pure (CONTAINING_RECORD off l :: rest)

/-- Forward traversal of the registry from `IMAGEHLP_pFirstLoadedImage`. -/
def forward (off fuel : Nat) (s : Registry) : Except Fault (List Nat) :=
  if s.IMAGEHLP_pFirstLoadedImage = 0 then .ok []
  else walkFlink off s.heap fuel (s.IMAGEHLP_pFirstLoadedImage + off)

/-- Backward traversal of the registry from `IMAGEHLP_pLastLoadedImage`. -/
def backward (off fuel : Nat) (s : Registry) : Except Fault (List Nat) :=
  if s.IMAGEHLP_pLastLoadedImage = 0 then .ok []
  else walkBlink off s.heap fuel (s.IMAGEHLP_pLastLoadedImage + off)

/-! ## Shape of the list -/

/-- The `LIST_ENTRY *` of the first record of `ps`, or `next` when `ps` is
empty. -/
def headLink (off : Nat) (ps : List Nat) (next : Nat) : Nat :=
  match ps with
  | [] => next
  | q :: _ => q + off

/-- The `LIST_ENTRY *` of the last record of `ps`, or `prev` when `ps` is
empty. -/
def lastLink (off : Nat) : List Nat → Nat → Nat
  | [], prev => prev
  | p :: ps, _ => lastLink off ps (p + off)

/-- The records `ps` are live, none is at `NULL`, and they are linked to each
other in this order: the `Blink` of the first is `prev`, the `Flink` of the
last is `next`, and each neighbouring pair points at each other. -/
def Linked (off : Nat) (heap : Nat → Option LOADED_IMAGE) : Nat → List Nat → Nat → Prop
  | _, [], _ => True
  | prev, p :: ps, next =>
    p ≠ 0 ∧ ∃ r, heap p = some r ∧ r.Links.Blink = prev ∧
      r.Links.Flink = headLink off ps next ∧ Linked off heap (p + off) ps next

/-- A well-formed registry holding the records `ps`, oldest first: the head
pointer is the first record and the tail pointer the last (both `NULL` when
there is none), the head has no `Blink`, the tail has no `Flink`, and each
neighbouring pair points at each other. -/
def IsRegistry (off : Nat) (s : Registry) (ps : List Nat) : Prop :=
  s.IMAGEHLP_pFirstLoadedImage = ps.headD 0 ∧
  s.IMAGEHLP_pLastLoadedImage = ps.getLastD 0 ∧
  Linked off s.heap 0 ps 0

/-- Starting at the `LIST_ENTRY *` `cur`, following `Flink` passes exactly the
entries `ls` (each one readable) and then reaches `NULL`. -/
def FlinkPath (off : Nat) (heap : Nat → Option LOADED_IMAGE) : Nat → List Nat → Prop
  | cur, [] => cur = 0
  | cur, l :: ls =>
    cur = l ∧ l ≠ 0 ∧ ∃ r, readLinks off heap l = .ok r ∧ FlinkPath off heap r.Links.Flink ls

/-- The `Flink` chain of the registry, from the head, is finite and
`NULL`-terminated; `ls` are its entries. -/
def FlinkFinite (off : Nat) (s : Registry) (ls : List Nat) : Prop :=
  FlinkPath off s.heap
    (if s.IMAGEHLP_pFirstLoadedImage = 0 then 0 else s.IMAGEHLP_pFirstLoadedImage + off) ls

/-- Arguments and environment of one call of `MapAndLoad`. -/
structure Call where
  env : Env
  pszImageName : String
  pszDllPath : String
  pLoadedImage : Nat
  bDotDll : Bool
  bReadOnly : Bool

/-- Run `MapAndLoad` on a call. -/
def Call.run (off : Nat) (s : Registry) (c : Call) : Except Fault MapAndLoadResult :=
  MapAndLoad off c.env s c.pszImageName c.pszDllPath c.pLoadedImage c.bDotDll c.bReadOnly

/-- Run a sequence of calls of `MapAndLoad`, all of which have to succeed
(return `TRUE`); `HeapAlloc` has to hand out, each time, an address that holds
no live record.  The result is the state after the last call. -/
def successfulLoads (off : Nat) : Registry → List Call → Option Registry
  | s, [] => some s
  | s, c :: cs =>
    match c.run off s with
    | .ok r =>
      if r.ret = true ∧ (s.heap c.env.HeapAlloc).isNone = true then
        successfulLoads off r.registry cs
      else none
    | .error _ => none

/-- What successful calls of `MapAndLoad` establish for the records `ps` they
registered: head and tail pointers are the first and the last record, and the
records are linked to each other; the `Blink` of the first one is
`&((PLOADED_IMAGE) NULL)->Links`, that is `off`. -/
def LoadedShape (off : Nat) (s : Registry) (ps : List Nat) : Prop :=
  s.IMAGEHLP_pFirstLoadedImage = ps.headD 0 ∧
  s.IMAGEHLP_pLastLoadedImage = ps.getLastD 0 ∧
  Linked off s.heap off ps 0

/-- The position of a release in a trace is before that of another one. -/
def releasedBefore (trace : List Release) (a b : Release) : Prop :=
  trace.indexOf a < trace.indexOf b

instance (trace : List Release) (a b : Release) : Decidable (releasedBefore trace a b) :=
  inferInstanceAs (Decidable (trace.indexOf a < trace.indexOf b))

/-- The bytes a `WORD` at `a` occupies are readable. -/
def ReadableWORD (mem : Nat → Option Nat) (a : Nat) : Prop :=
  (mem a).isSome = true ∧ (mem (ptrAdd a 1)).isSome = true

/-- The bytes a `DWORD` at `a` occupies are readable. -/
def ReadableDWORD (mem : Nat → Option Nat) (a : Nat) : Prop :=
  ReadableWORD mem a ∧ ReadableWORD mem (ptrAdd a 2)

/-! ## The section table, as the specification describes it -/

/-- Modelled from the spec: `winnt.h` is not among the sources; the members of
`IMAGE_SECTION_HEADER` that give the virtual-address range and the raw-data
range of a section. -/
structure IMAGE_SECTION_HEADER where
  VirtualSize : Nat
  VirtualAddress : Nat
  SizeOfRawData : Nat
  PointerToRawData : Nat
  deriving DecidableEq, Repr

/-- Modelled from the spec: `winnt.h` is not among the sources; read the
section header stored at `a` (an 8-byte name, then `VirtualSize`,
`VirtualAddress`, `SizeOfRawData` and `PointerToRawData`, four bytes each). -/
def readSectionHeader (mem : Nat → Option Nat) (a : Nat) :
    Except Fault IMAGE_SECTION_HEADER := do
  let VirtualSize ← readDWORD mem (ptrAdd a 8)
  let VirtualAddress ← readDWORD mem (ptrAdd a 12)
  let SizeOfRawData ← readDWORD mem (ptrAdd a 16)
  let PointerToRawData ← readDWORD mem (ptrAdd a 20)
  pure
    { VirtualSize := VirtualSize
      VirtualAddress := VirtualAddress
      SizeOfRawData := SizeOfRawData
      PointerToRawData := PointerToRawData }

/-- The address the specification gives for an RVA inside a section:
base + (rva - sectionVirtualAddress) + sectionRawDataOffset. -/
def specifiedVa (Base Rva : Nat) (sec : IMAGE_SECTION_HEADER) : Nat :=
  Base + (Rva - sec.VirtualAddress) + sec.PointerToRawData

/-! ## Concrete inputs -/

/-- A record of which only the links are of interest. -/
def linksOnly (Flink Blink : Nat) : LOADED_IMAGE :=
  { ModuleName := ""
    hFile := 0
    MappedAddress := 0
    FileHeader := 0
    LastRvaSection := 0
    NumberOfSections := 0
    Sections := 0
    Characteristics := 0
    fSystemImage := false
    fDOSImage := false
    Links := { Flink := Flink, Blink := Blink }
    SizeOfImage := 0 }

/-- A well-formed registry of three records at 1000, 2000 and 3000, for
`Links` at offset 36. -/
def registryABC : Registry :=
  { IMAGEHLP_pFirstLoadedImage := 1000
    IMAGEHLP_pLastLoadedImage := 3000
    heap := fun a =>
      if a = 1000 then some (linksOnly 2036 0)
      else if a = 2000 then some (linksOnly 3036 1036)
      else if a = 3000 then some (linksOnly 0 2036)
      else none
    lastError := 0 }

/-- The view of a 64-byte file mapped at 65536 whose DOS header has
`e_lfanew = 4`; every other byte of the file is zero.  A view covers whole
pages, so the bytes up to the end of the 4096-byte page are readable (and
zero). -/
def truncatedView : Nat → Option Nat :=
  fun a => if 65536 ≤ a ∧ a < 65536 + 4096 then some (if a = 65536 + 60 then 4 else 0) else none

/-- The same file when nothing but its 64 bytes can be read. -/
def truncatedViewStrict : Nat → Option Nat :=
  fun a => if 65536 ≤ a ∧ a < 65536 + 64 then some (if a = 65536 + 60 then 4 else 0) else none

/-- The non-zero header bytes, by file offset, of a small PE image: the `MZ`
magic, `e_lfanew = 128`, the `PE` signature, `NumberOfSections = 1`,
`SizeOfOptionalHeader = 224`, `Characteristics = 271`, `SizeOfImage = 32768`,
and one section header at offset 128 + 24 + 224 = 376 with
`VirtualSize = 4096`, `VirtualAddress = 4096`, `SizeOfRawData = 4096` and
`PointerToRawData = 1024`. -/
def peBytes : List (Nat × Nat) :=
  [(0, 77), (1, 90), (60, 128),
   (128, 80), (129, 69),
   (128 + 6, 1), (128 + 20, 224), (128 + 22, 15), (128 + 23, 1), (128 + 81, 128),
   (376 + 9, 16), (376 + 13, 16), (376 + 17, 16), (376 + 21, 4)]

/-- The view of that image mapped at 4194304; one page is readable, every byte
not listed in `peBytes` is zero. -/
def peView : Nat → Option Nat :=
  fun a =>
    if 4194304 ≤ a ∧ a < 4194304 + 4096 then
      some ((peBytes.lookup (a - 4194304)).getD 0)
    else none

/-- The first (and only) section of the image `peBytes` describes: virtual
range `[4096, 8192)`, raw data at file offset 1024. -/
def firstSection : IMAGE_SECTION_HEADER :=
  { VirtualSize := 4096
    VirtualAddress := 4096
    SizeOfRawData := 4096
    PointerToRawData := 1024 }

/-- An environment in which `CreateFileA` returns handle 3,
`CreateFileMappingA` handle 4, `MapViewOfFile` the address `Base`, and
`HeapAlloc` the address `p`. -/
def envOK (mem : Nat → Option Nat) (Base p : Nat) : Env :=
  { CreateFileA := 3
    CreateFileMappingA := 4
    mappingError := 8
    MapViewOfFile := Base
    viewError := 8
    HeapAlloc := p
    mem := mem }

/-- An environment in which `CreateFileA` and `CreateFileMappingA` succeed
(handles 3 and 4) and `MapViewOfFile` fails with error 8. -/
def envViewFails : Env :=
  { CreateFileA := 3
    CreateFileMappingA := 4
    mappingError := 0
    MapViewOfFile := 0
    viewError := 8
    HeapAlloc := 1000
    mem := fun _ => none }

/-- The call `MapAndLoad("calc.exe", "bin", ...)` on the image `peView`, the
record being allocated at `p`. -/
def callPE (p : Nat) : Call :=
  { env := envOK peView 4194304 p
    pszImageName := "calc.exe"
    pszDllPath := "bin"
    pLoadedImage := 0
    bDotDll := false
    bReadOnly := true }

/-- The call `MapAndLoad("short.exe", "bin", ...)` on the 64-byte file. -/
def callTruncated : Call :=
  { env := envOK truncatedView 65536 1000
    pszImageName := "short.exe"
    pszDllPath := "bin"
    pLoadedImage := 0
    bDotDll := false
    bReadOnly := true }

/-! ## Theorems -/

theorem readLinks_add {off : Nat} {heap : Nat → Option LOADED_IMAGE} {p : Nat} {r : LOADED_IMAGE}
    (h : heap p = some r) : readLinks off heap (p + off) = .ok r := by
  simp [readLinks, h]

theorem CONTAINING_RECORD_add (off p : Nat) : CONTAINING_RECORD off (p + off) = p := by
  simp [CONTAINING_RECORD]

theorem headLink_nil (off next : Nat) : headLink off [] next = next := rfl

theorem headLink_cons (off q : Nat) (ps : List Nat) (next : Nat) :
    headLink off (q :: ps) next = q + off := rfl

theorem headLink_append (off : Nat) (a b : List Nat) (next : Nat) :
    headLink off (a ++ b) next = headLink off a (headLink off b next) := by
  cases a <;> rfl

theorem lastLink_nil (off prev : Nat) : lastLink off [] prev = prev := rfl

theorem lastLink_cons (off : Nat) (p : Nat) (a : List Nat) (prev : Nat) :
    lastLink off (p :: a) prev = lastLink off a (p + off) := rfl

theorem lastLink_append (off : Nat) (a b : List Nat) (prev : Nat) :
    lastLink off (a ++ b) prev = lastLink off b (lastLink off a prev) := by
  induction a generalizing prev with
  | nil => rfl
  | cons p a ih => simp only [List.cons_append, lastLink_cons, ih]

theorem lastLink_append_singleton (off : Nat) (a : List Nat) (p prev : Nat) :
    lastLink off (a ++ [p]) prev = p + off := by
  rw [lastLink_append]; rfl

theorem Linked_nil {off : Nat} {heap : Nat → Option LOADED_IMAGE} (prev next : Nat) :
    Linked off heap prev [] next ↔ True := Iff.rfl

theorem Linked_cons {off : Nat} {heap : Nat → Option LOADED_IMAGE} (p : Nat) (ps : List Nat)
    (prev next : Nat) :
    Linked off heap prev (p :: ps) next ↔
      p ≠ 0 ∧ ∃ r, heap p = some r ∧ r.Links.Blink = prev ∧
        r.Links.Flink = headLink off ps next ∧ Linked off heap (p + off) ps next := Iff.rfl

theorem Linked_append {off : Nat} {heap : Nat → Option LOADED_IMAGE} (a b : List Nat)
    (prev next : Nat) :
    Linked off heap prev (a ++ b) next ↔
      Linked off heap prev a (headLink off b next) ∧
        Linked off heap (lastLink off a prev) b next := by
  induction a generalizing prev with
  | nil => simp [Linked_nil, lastLink_nil]
  | cons p a ih =>
    rw [List.cons_append, Linked_cons, Linked_cons, ih, headLink_append, lastLink_cons]
    constructor
    · rintro ⟨h0, r, hr, hb, hf, h1, h2⟩
      exact ⟨⟨h0, r, hr, hb, hf, h1⟩, h2⟩
    · rintro ⟨⟨h0, r, hr, hb, hf, h1⟩, h2⟩
      exact ⟨h0, r, hr, hb, hf, h1, h2⟩

theorem Linked_frame {off : Nat} {heap heap2 : Nat → Option LOADED_IMAGE} {ps : List Nat}
    {prev next : Nat} (hagree : ∀ p ∈ ps, heap2 p = heap p) (h : Linked off heap prev ps next) :
    Linked off heap2 prev ps next := by
  induction ps generalizing prev with
  | nil => trivial
  | cons p ps ih =>
    obtain ⟨h0, r, hr, hb, hf, h1⟩ := h
    refine ⟨h0, r, ?_, hb, hf, ih (fun q hq => hagree q (List.mem_cons_of_mem _ hq)) h1⟩
    rw [hagree p (List.mem_cons_self _ _), hr]

theorem Linked_mem {off : Nat} {heap : Nat → Option LOADED_IMAGE} {ps : List Nat}
    {prev next : Nat} (h : Linked off heap prev ps next) {p : Nat} (hp : p ∈ ps) :
    p ≠ 0 ∧ ∃ r, heap p = some r := by
  induction ps generalizing prev with
  | nil => cases hp
  | cons q ps ih =>
    obtain ⟨h0, r, hr, -, -, h1⟩ := h
    rcases List.mem_cons.1 hp with rfl | hp
    · exact ⟨h0, r, hr⟩
    · exact ih h1 hp

theorem Linked_walkFlink {off : Nat} {heap : Nat → Option LOADED_IMAGE} {ps : List Nat}
    {prev : Nat} (h : Linked off heap prev ps 0) (fuel : Nat) (hfuel : ps.length < fuel) :
    walkFlink off heap fuel (headLink off ps 0) = .ok ps := by
  induction ps generalizing prev fuel with
  | nil =>
    cases fuel with
    | zero => cases hfuel
    | succ n => simp [walkFlink, headLink]
  | cons p ps ih =>
    obtain ⟨h0, r, hr, -, hf, h1⟩ := h
    cases fuel with
    | zero => cases hfuel
    | succ n =>
      have hn : ps.length < n := by simpa using hfuel
      have hne : p + off ≠ 0 := by omega
      simp [walkFlink, headLink_cons, hne, readLinks_add hr, hf, ih h1 n hn,
        CONTAINING_RECORD_add, bind, Except.bind, pure, Except.pure]

theorem Linked_walkBlink {off : Nat} {heap : Nat → Option LOADED_IMAGE} {ps : List Nat}
    {next : Nat} (h : Linked off heap 0 ps next) (fuel : Nat) (hfuel : ps.length < fuel) :
    walkBlink off heap fuel (lastLink off ps 0) = .ok ps.reverse := by
  induction ps using List.reverseRecOn generalizing next fuel with
  | nil =>
    cases fuel with
    | zero => cases hfuel
    | succ n => simp [walkBlink, lastLink_nil]
  | append_singleton a p ih =>
    rw [Linked_append] at h
    obtain ⟨ha, h0, r, hr, hb, -, -⟩ := h
    cases fuel with
    | zero => cases hfuel
    | succ n =>
      have hn : a.length < n := by simpa using hfuel
      have hne : p + off ≠ 0 := by omega
      rw [headLink_cons] at ha
      simp [walkBlink, lastLink_append_singleton, hne, readLinks_add hr, hb, ih ha n hn,
        CONTAINING_RECORD_add, bind, Except.bind, pure, Except.pure]

theorem Linked_nodup {off : Nat} {heap : Nat → Option LOADED_IMAGE} {ps : List Nat}
    {prev : Nat} (h : Linked off heap prev ps 0) : ps.Nodup := by
  induction ps generalizing prev with
  | nil => exact List.nodup_nil
  | cons p ps ih =>
    have hw := Linked_walkFlink h (ps.length + 2) (by simp)
    obtain ⟨-, r, -, -, -, h1⟩ := h
    refine List.nodup_cons.2 ⟨?_, ih h1⟩
    intro hp
    obtain ⟨b1, b2, rfl⟩ := List.append_of_mem hp
    have h2 := ((Linked_append b1 (p :: b2) (p + off) 0).1 h1).2
    have hw2 := Linked_walkFlink h2 ((b1 ++ p :: b2).length + 2) (by simp; omega)
    rw [headLink_cons] at hw hw2
    rw [hw] at hw2
    have hlen := congrArg List.length (Except.ok.inj hw2)
    simp at hlen
    omega

theorem scan_found {off : Nat} {heap : Nat → Option LOADED_IMAGE} {pre post : List Nat}
    {R prev next : Nat} (h : Linked off heap prev (pre ++ R :: post) next) (hR : R ∉ pre)
    (fuel : Nat) (hfuel : pre.length < fuel) :
    ImageUnload.scan off heap (R + off) fuel (headLink off (pre ++ R :: post) next) =
      .ok (R + off) := by
  induction pre generalizing prev fuel with
  | nil =>
    cases fuel with
    | zero => cases hfuel
    | succ n => simp [ImageUnload.scan, headLink_cons]
  | cons p pre ih =>
    obtain ⟨h0, r, hr, -, hf, h1⟩ := h
    cases fuel with
    | zero => cases hfuel
    | succ n =>
      have hn : pre.length < n := by simpa using hfuel
      have hpR : p ≠ R := fun e => hR (e ▸ List.mem_cons_self _ _)
      have hR2 : R ∉ pre := fun e => hR (List.mem_cons_of_mem _ e)
      have hne : p + off ≠ 0 := by omega
      simp [ImageUnload.scan, headLink_cons, hpR, hne, readLinks_add hr, hf, ih h1 hR2 n hn,
        bind, Except.bind]

theorem scan_not_found {off : Nat} {heap : Nat → Option LOADED_IMAGE} {ls : List Nat}
    {cur pFind : Nat} (h : FlinkPath off heap cur ls) (hP : pFind ∉ ls)
    (fuel : Nat) (hfuel : ls.length < fuel) :
    ImageUnload.scan off heap pFind fuel cur = .ok 0 := by
  induction ls generalizing cur fuel with
  | nil =>
    cases fuel with
    | zero => cases hfuel
    | succ n =>
      have : cur = 0 := h
      simp [ImageUnload.scan, this]
  | cons l ls ih =>
    obtain ⟨rfl, h0, r, hr, h1⟩ := h
    cases fuel with
    | zero => cases hfuel
    | succ n =>
      have hn : ls.length < n := by simpa using hfuel
      have hne : cur ≠ pFind := fun e => hP (e ▸ List.mem_cons_self _ _)
      have hP2 : pFind ∉ ls := fun e => hP (List.mem_cons_of_mem _ e)
      simp [ImageUnload.scan, hne, h0, hr, ih h1 hP2 n hn, bind, Except.bind]

theorem Linked_set_last_Flink {off : Nat} {heap : Nat → Option LOADED_IMAGE} {a : List Nat}
    {q prev next : Nat} {r : LOADED_IMAGE} (h : Linked off heap prev (a ++ [q]) next)
    (hr : heap q = some r) (hq : q ∉ a) (v : Nat) :
    Linked off (store heap q { r with Links := { r.Links with Flink := v } }) prev
      (a ++ [q]) v := by
  rw [Linked_append] at h ⊢
  obtain ⟨ha, h0, r2, hr2, hb, -, -⟩ := h
  have e : r2 = r := Option.some.inj (hr2.symm.trans hr)
  subst e
  refine ⟨Linked_frame ?_ ha, h0, { r2 with Links := { r2.Links with Flink := v } }, ?_, hb,
    rfl, trivial⟩
  · intro p hp
    have : p ≠ q := fun e => hq (e ▸ hp)
    simp [store, this]
  · simp [store]

theorem Linked_set_first_Blink {off : Nat} {heap : Nat → Option LOADED_IMAGE} {b : List Nat}
    {q prev next : Nat} {r : LOADED_IMAGE} (h : Linked off heap prev (q :: b) next)
    (hr : heap q = some r) (hq : q ∉ b) (v : Nat) :
    Linked off (store heap q { r with Links := { r.Links with Blink := v } }) v
      (q :: b) next := by
  obtain ⟨h0, r2, hr2, -, hf, h1⟩ := h
  have e : r2 = r := Option.some.inj (hr2.symm.trans hr)
  subst e
  refine ⟨h0, { r2 with Links := { r2.Links with Blink := v } }, ?_, rfl, hf,
    Linked_frame ?_ h1⟩
  · simp [store]
  · intro p hp
    have : p ≠ q := fun e => hq (e ▸ hp)
    simp [store, this]

theorem relinkPrevious_spec {off : Nat} {s : Registry} {pre post : List Nat} {R prev : Nat}
    {rR : LOADED_IMAGE} (hR : s.heap R = some rR)
    (hB : rR.Links.Blink = lastLink off pre prev) (hF : rR.Links.Flink = headLink off post 0)
    (hpre : Linked off s.heap prev pre (R + off)) (hnd : pre.Nodup)
    (hpost0 : ∀ q ∈ post, q ≠ 0) (hprev : pre = [] → prev = 0) :
    ∃ s1, ImageUnload.relinkPrevious off s (R + off) = .ok s1 ∧
      s1.IMAGEHLP_pFirstLoadedImage =
        (if pre = [] then post.headD 0 else s.IMAGEHLP_pFirstLoadedImage) ∧
      s1.IMAGEHLP_pLastLoadedImage = s.IMAGEHLP_pLastLoadedImage ∧
      s1.lastError = s.lastError ∧
      (∀ x, x ∉ pre → s1.heap x = s.heap x) ∧
      Linked off s1.heap prev pre (headLink off post 0) := by
  rcases List.eq_nil_or_concat pre with rfl | ⟨a, q, rfl⟩
  · have hp0 : prev = 0 := hprev rfl
    rw [lastLink_nil, hp0] at hB
    cases post with
    | nil =>
      rw [headLink_nil] at hF
      refine ⟨{ s with IMAGEHLP_pFirstLoadedImage := 0 }, ?_, ?_, rfl, rfl, fun _ _ => rfl,
        trivial⟩
      · simp only [ImageUnload.relinkPrevious, readLinks_add hR, hB, hF, bind, Except.bind,
          ne_eq, not_true_eq_false, if_false, pure, Except.pure]
      · simp
    | cons q b =>
      rw [headLink_cons] at hF
      have hq0 : q ≠ 0 := hpost0 q (List.mem_cons_self _ _)
      have hne : q + off ≠ 0 := by omega
      refine ⟨{ s with IMAGEHLP_pFirstLoadedImage := q }, ?_, ?_, rfl, rfl, fun _ _ => rfl,
        trivial⟩
      · simp only [ImageUnload.relinkPrevious, readLinks_add hR, hB, hF, bind, Except.bind,
          ne_eq, not_true_eq_false, if_false, pure, Except.pure]
        simp [hne, CONTAINING_RECORD_add]
      · simp
  · rw [List.concat_eq_append] at hB hpre hnd ⊢
    rw [lastLink_append_singleton] at hB
    have hqa : q ∉ a := by
      have := List.nodup_append.1 hnd
      intro hq
      exact this.2.2 hq (List.mem_singleton_self q) 
    obtain ⟨hq0, rq, hrq⟩ := Linked_mem hpre (List.mem_append_right a (List.mem_singleton_self q))
    have hne : q + off ≠ 0 := by omega
    refine ⟨{ s with heap := (store s.heap q
        ({ rq with Links := { rq.Links with Flink := headLink off post 0 } })) }, ?_, ?_, rfl, rfl,
        ?_, Linked_set_last_Flink hpre hrq hqa _⟩
    · simp [ImageUnload.relinkPrevious, readLinks_add hR, hB, hF, hne, writeFlink,
        readLinks_add hrq, bind, Except.bind, pure, Except.pure]
    · simp
    · intro x hx
      have : x ≠ q := by
        rintro rfl
        exact hx (List.mem_append_right a (List.mem_singleton_self x))
      simp [store, this]

theorem relinkNext_spec {off : Nat} {s : Registry} {pre post : List Nat} {R prev : Nat}
    {rR : LOADED_IMAGE} (hR : s.heap R = some rR)
    (hB : rR.Links.Blink = lastLink off pre prev) (hF : rR.Links.Flink = headLink off post 0)
    (hpost : Linked off s.heap (R + off) post 0)
    (hpre0 : ∀ q ∈ pre, q ≠ 0) (hprev : pre = [] → prev = 0) :
    ∃ s2, ImageUnload.relinkNext off s (R + off) = .ok s2 ∧
      s2.IMAGEHLP_pFirstLoadedImage = s.IMAGEHLP_pFirstLoadedImage ∧
      s2.IMAGEHLP_pLastLoadedImage =
        (if post = [] then pre.getLastD 0 else s.IMAGEHLP_pLastLoadedImage) ∧
      s2.lastError = s.lastError ∧
      (∀ x, x ∉ post → s2.heap x = s.heap x) ∧
      Linked off s2.heap (lastLink off pre prev) post 0 := by
  cases post with
  | nil =>
    rw [headLink_nil] at hF
    rcases List.eq_nil_or_concat pre with rfl | ⟨a, q, rfl⟩
    · have hp0 : prev = 0 := hprev rfl
      rw [lastLink_nil, hp0] at hB
      refine ⟨{ s with IMAGEHLP_pLastLoadedImage := 0 }, ?_, rfl, ?_, rfl, fun _ _ => rfl,
        trivial⟩
      · simp only [ImageUnload.relinkNext, readLinks_add hR, hB, hF, bind, Except.bind,
          ne_eq, not_true_eq_false, if_false, pure, Except.pure]
      · simp
    · rw [List.concat_eq_append] at hB hpre0 ⊢
      rw [lastLink_append_singleton] at hB
      have hq0 : q ≠ 0 := hpre0 q (List.mem_append_right a (List.mem_singleton_self q))
      have hne : q + off ≠ 0 := by omega
      refine ⟨{ s with IMAGEHLP_pLastLoadedImage := q }, ?_, rfl, ?_, rfl, fun _ _ => rfl,
        trivial⟩
      · simp only [ImageUnload.relinkNext, readLinks_add hR, hB, hF, bind, Except.bind,
          ne_eq, not_true_eq_false, if_false, pure, Except.pure]
        simp [hne, CONTAINING_RECORD_add]
      · simp
  | cons q b =>
    rw [headLink_cons] at hF
    have hqb : q ∉ b := (List.nodup_cons.1 (Linked_nodup hpost)).1
    obtain ⟨hq0, rq, hrq⟩ := Linked_mem hpost (List.mem_cons_self q b)
    have hne : q + off ≠ 0 := by omega
    refine ⟨{ s with heap := (store s.heap q
        ({ rq with Links := { rq.Links with Blink := lastLink off pre prev } })) }, ?_, rfl, ?_,
        rfl, ?_, Linked_set_first_Blink hpost hrq hqb _⟩
    · simp [ImageUnload.relinkNext, readLinks_add hR, hB, hF, hne, writeBlink,
        readLinks_add hrq, bind, Except.bind, pure, Except.pure]
    · simp
    · intro x hx
      have : x ≠ q := by
        rintro rfl
        exact hx (List.mem_cons_self x b)
      simp [store, this]

theorem headLink_eq_headD (off : Nat) {ps : List Nat} (h : ps ≠ []) (next : Nat) :
    headLink off ps next = ps.headD 0 + off := by
  cases ps with
  | nil => exact absurd rfl h
  | cons p ps => rfl

theorem ImageUnload_unlink {off : Nat} {s : Registry} {pre post : List Nat} {R prev : Nat}
    (hfirst : s.IMAGEHLP_pFirstLoadedImage = (pre ++ R :: post).headD 0)
    (hlast : s.IMAGEHLP_pLastLoadedImage = (pre ++ R :: post).getLastD 0)
    (hL : Linked off s.heap prev (pre ++ R :: post) 0)
    (hprev : pre = [] → prev = 0) (fuel : Nat) (hfuel : pre.length < fuel) :
    ∃ s2, ImageUnload off fuel s R = .ok (s2, false) ∧
      s2.IMAGEHLP_pFirstLoadedImage = (pre ++ post).headD 0 ∧
      s2.IMAGEHLP_pLastLoadedImage = (pre ++ post).getLastD 0 ∧
      s2.lastError = s.lastError ∧
      Linked off s2.heap prev (pre ++ post) 0 := by
  have hnd := Linked_nodup hL
  have hnd2 := List.nodup_append.1 hnd
  have hndpre : pre.Nodup := hnd2.1
  have hRpre : R ∉ pre := fun h => hnd2.2.2 h (List.mem_cons_self _ _)
  have hdisj : ∀ x, x ∈ pre → x ∉ post := fun x hx hx2 =>
    hnd2.2.2 hx (List.mem_cons_of_mem _ hx2)
  have hRpost : R ∉ post := (List.nodup_cons.1 hnd2.2.1).1
  have hall0 : ∀ q ∈ pre ++ R :: post, q ≠ 0 := fun q hq => (Linked_mem hL hq).1
  obtain ⟨hpreL, hR0, rR, hR, hB, hF, hpostL⟩ := (Linked_append pre (R :: post) prev 0).1 hL
  rw [headLink_cons] at hpreL
  have hne : pre ++ R :: post ≠ [] := by simp
  have hfirst0 : s.IMAGEHLP_pFirstLoadedImage ≠ 0 := by
    rw [hfirst]
    exact hall0 _ (by cases pre <;> simp)
  have hscan := scan_found hL hRpre fuel hfuel
  rw [headLink_eq_headD off hne, ← hfirst] at hscan
  obtain ⟨s1, hs1, hf1, hl1, he1, hh1, hL1⟩ := relinkPrevious_spec hR hB hF hpreL hndpre
    (fun q hq => hall0 q (List.mem_append_right _ (List.mem_cons_of_mem _ hq))) hprev
  have hR1 : s1.heap R = some rR := by rw [hh1 R hRpre, hR]
  have hpostL1 : Linked off s1.heap (R + off) post 0 :=
    Linked_frame (fun p hp => hh1 p (fun hp2 => hdisj p hp2 hp)) hpostL
  obtain ⟨s2, hs2, hf2, hl2, he2, hh2, hL2⟩ := relinkNext_spec hR1 hB hF hpostL1
    (fun q hq => hall0 q (List.mem_append_left _ hq)) hprev
  have hL1b : Linked off s2.heap prev pre (headLink off post 0) :=
    Linked_frame (fun p hp => hh2 p (hdisj p hp)) hL1
  have hRoff : R + off ≠ 0 := by omega
  refine ⟨s2, ?_, ?_, ?_, by rw [he2, he1], (Linked_append pre post prev 0).2 ⟨hL1b, hL2⟩⟩
  · simp [ImageUnload, hfirst0, hR0, hscan, hRoff, hs1, hs2, bind, Except.bind, pure,
      Except.pure]
  · rw [hf2, hf1, hfirst]
    cases pre <;> simp
  · rw [hl2, hl1, hlast]
    cases post with
    | nil => simp
    | cons q b => simp [List.getLast?_append, List.getLast?_cons_cons]

theorem populate_ok {off : Nat} {mem : Nat → Option Nat} {s : Registry} {pszDllPath : String}
    {hFile hModule pLoadedImage : Nat} {image : LOADED_IMAGE}
    (h : MapAndLoad.populate off mem s pszDllPath hFile hModule pLoadedImage = .ok image) :
    pLoadedImage ≠ 0 ∧
    ∃ nt sz, ImageNtHeader mem hModule = .ok nt ∧
      readWORD mem (ptrAdd nt OFFSET_SizeOfOptionalHeader) = .ok sz ∧
      readWORD mem (ptrAdd nt OFFSET_NumberOfSections) = .ok image.NumberOfSections ∧
      readDWORD mem (ptrAdd nt OFFSET_SizeOfImage) = .ok image.SizeOfImage ∧
      readWORD mem (ptrAdd nt OFFSET_Characteristics) = .ok image.Characteristics ∧
      image.ModuleName = HEAP_strdupA pszDllPath ∧
      image.hFile = hFile ∧
      image.MappedAddress = hModule ∧
      image.FileHeader = nt ∧
      image.Sections = ptrAdd (ptrAdd nt OFFSET_OptionalHeader) sz ∧
      image.LastRvaSection = image.Sections ∧
      image.fSystemImage = false ∧ image.fDOSImage = false ∧
      image.Links = { Flink := 0, Blink := s.IMAGEHLP_pLastLoadedImage + off } := by
  unfold MapAndLoad.populate at h
  cases hnt : ImageNtHeader mem hModule with
  | error e => simp [hnt, bind, Except.bind] at h
  | ok nt =>
    by_cases hp : pLoadedImage = 0
    · simp [hnt, hp, bind, Except.bind, throw, throwThe, MonadExceptOf.throw] at h
    · cases hsz : readWORD mem (ptrAdd nt OFFSET_SizeOfOptionalHeader) with
      | error e => simp [hnt, hp, hsz, bind, Except.bind, pure, Except.pure] at h
      | ok sz =>
        cases hns : readWORD mem (ptrAdd nt OFFSET_NumberOfSections) with
        | error e => simp [hnt, hp, hsz, hns, bind, Except.bind, pure, Except.pure] at h
        | ok ns =>
          cases hsi : readDWORD mem (ptrAdd nt OFFSET_SizeOfImage) with
          | error e => simp [hnt, hp, hsz, hns, hsi, bind, Except.bind, pure, Except.pure] at h
          | ok si =>
            cases hch : readWORD mem (ptrAdd nt OFFSET_Characteristics) with
            | error e =>
              simp [hnt, hp, hsz, hns, hsi, hch, bind, Except.bind, pure, Except.pure] at h
            | ok ch =>
              simp [hnt, hp, hsz, hns, hsi, hch, bind, Except.bind, pure, Except.pure] at h
              subst h
              exact ⟨hp, nt, sz, rfl, hsz, hns, hsi, hch, rfl, rfl, rfl, rfl, rfl, rfl, rfl, rfl,
                rfl⟩

theorem MapAndLoad_ok_true {off : Nat} {env : Env} {s : Registry}
    {pszImageName pszDllPath : String} {pLoadedImage : Nat} {bDotDll bReadOnly : Bool}
    {r : MapAndLoadResult}
    (h : MapAndLoad off env s pszImageName pszDllPath pLoadedImage bDotDll bReadOnly = .ok r)
    (hret : r.ret = true) :
    env.CreateFileA ≠ 0 ∧ env.CreateFileMappingA ≠ 0 ∧ env.MapViewOfFile ≠ 0 ∧
    ∃ image,
      MapAndLoad.populate off env.mem s pszDllPath 0 env.MapViewOfFile env.HeapAlloc =
        .ok image ∧
      MapAndLoad.append off s (store s.heap env.HeapAlloc image) env.HeapAlloc =
        .ok r.registry ∧
      r.released =
        [Release.CloseHandle env.CreateFileA, Release.CloseHandle env.CreateFileMappingA] := by
  unfold MapAndLoad at h
  by_cases h1 : env.CreateFileA = 0
  · simp [h1, MapAndLoad.Error] at h
    subst h
    simp at hret
  by_cases h2 : env.CreateFileMappingA = 0
  · simp [h1, h2, MapAndLoad.Error] at h
    subst h
    simp at hret
  by_cases h3 : env.MapViewOfFile = 0
  · simp [h1, h2, h3, MapAndLoad.Error] at h
    subst h
    simp at hret
  refine ⟨h1, h2, h3, ?_⟩
  simp only [h1, h2, h3, if_false] at h
  cases hp : MapAndLoad.populate off env.mem s pszDllPath 0 env.MapViewOfFile env.HeapAlloc with
  | error e => simp [hp, bind, Except.bind] at h
  | ok image =>
    cases ha : MapAndLoad.append off s (store s.heap env.HeapAlloc image) env.HeapAlloc with
    | error e => simp [hp, ha, bind, Except.bind] at h
    | ok s2 =>
      simp [hp, ha, bind, Except.bind, pure, Except.pure] at h
      subst h
      exact ⟨image, rfl, ha, rfl⟩

theorem append_spec {off : Nat} {s : Registry} {ps : List Nat} {p : Nat} {image : LOADED_IMAGE}
    (hinv : LoadedShape off s ps) (hfresh : s.heap p = none) (hp0 : p ≠ 0)
    (hlinks : image.Links = { Flink := 0, Blink := s.IMAGEHLP_pLastLoadedImage + off }) :
    ∃ s2, MapAndLoad.append off s (store s.heap p image) p = .ok s2 ∧
      LoadedShape off s2 (ps ++ [p]) ∧ s2.lastError = s.lastError ∧
      (∀ x, x ≠ p → x ≠ s.IMAGEHLP_pLastLoadedImage → s2.heap x = s.heap x) := by
  obtain ⟨hfirst, hlast, hL⟩ := hinv
  have hpps : p ∉ ps := fun hp => by
    obtain ⟨-, r, hr⟩ := Linked_mem hL hp
    rw [hfresh] at hr
    cases hr
  have hL1 : Linked off (store s.heap p image) off ps 0 :=
    Linked_frame (fun x hx => by
      have : x ≠ p := fun e => hpps (e ▸ hx)
      simp [store, this]) hL
  rcases List.eq_nil_or_concat ps with rfl | ⟨a, q, rfl⟩
  · have hl0 : s.IMAGEHLP_pLastLoadedImage = 0 := by simpa using hlast
    have hf0 : s.IMAGEHLP_pFirstLoadedImage = 0 := by simpa using hfirst
    refine ⟨Registry.mk p p (store s.heap p image) s.lastError, ?_, ⟨rfl, rfl, ?_⟩, rfl, ?_⟩
    · simp [MapAndLoad.append, hl0, hf0, bind, Except.bind, pure, Except.pure]
    · refine ⟨hp0, image, by simp [store], ?_, ?_, trivial⟩
      · rw [hlinks, hl0]; simp
      · rw [hlinks]; rfl
    · intro x hx _
      simp [store, hx]
  · rw [List.concat_eq_append] at hfirst hlast hL hL1 hpps ⊢
    have hlq : s.IMAGEHLP_pLastLoadedImage = q := by
      rw [hlast, List.getLastD_concat]
    have hqa : q ∉ a := by
      have := List.nodup_append.1 (Linked_nodup hL)
      intro hq
      exact this.2.2 hq (List.mem_singleton_self q)
    have hqmem : q ∈ a ++ [q] := List.mem_append_right a (List.mem_singleton_self q)
    obtain ⟨hq0, rq, hrq⟩ := Linked_mem hL1 hqmem
    have hqp : q ≠ p := fun e => hpps (e ▸ hqmem)
    have hf0 : s.IMAGEHLP_pFirstLoadedImage ≠ 0 := by
      rw [hfirst]
      have hmem : (a ++ [q]).headD 0 ∈ a ++ [q] := by cases a <;> simp
      exact (Linked_mem hL hmem).1
    refine ⟨Registry.mk s.IMAGEHLP_pFirstLoadedImage p (store (store s.heap p image) q
        ({ rq with Links := { rq.Links with Flink := p + off } })) s.lastError,
        ?_, ⟨?_, ?_, ?_⟩, rfl, ?_⟩
    · simp [MapAndLoad.append, hlq, hq0, hf0, writeFlink, readLinks_add hrq, bind, Except.bind,
        pure, Except.pure]
    · simp only [hfirst]
      cases a <;> simp
    · simp
    · refine (Linked_append (a ++ [q]) [p] off 0).2
        ⟨Linked_set_last_Flink hL1 hrq hqa (p + off), ?_⟩
      rw [lastLink_append_singleton]
      refine ⟨hp0, image, ?_, ?_, ?_, trivial⟩
      · have : p ≠ q := fun e => hqp e.symm
        simp [store, this]
      · rw [hlinks, hlq]
      · rw [hlinks]; rfl
    · intro x hx hx2
      rw [hlq] at hx2
      simp [store, hx, hx2]

theorem MapAndLoad_step {off : Nat} {s : Registry} {ps : List Nat} {c : Call}
    {r : MapAndLoadResult} (hinv : LoadedShape off s ps)
    (hfresh : s.heap c.env.HeapAlloc = none) (h : c.run off s = .ok r) (hret : r.ret = true) :
    LoadedShape off r.registry (ps ++ [c.env.HeapAlloc]) := by
  obtain ⟨-, -, -, image, hpop, happ, -⟩ := MapAndLoad_ok_true h hret
  obtain ⟨hp0, -, -, -, -, -, -, -, -, -, -, -, -, -, -, -, hlinks⟩ := populate_ok hpop
  obtain ⟨s2, hs2, hshape, -, -⟩ := append_spec hinv hfresh hp0 hlinks
  rw [hs2] at happ
  cases happ
  exact hshape

theorem successfulLoads_shape {off : Nat} {s s2 : Registry} {ps : List Nat} {cs : List Call}
    (hinv : LoadedShape off s ps) (h : successfulLoads off s cs = some s2) :
    LoadedShape off s2 (ps ++ cs.map (fun c => c.env.HeapAlloc)) := by
  induction cs generalizing s ps with
  | nil =>
    simp only [successfulLoads, Option.some.injEq] at h
    subst h
    simpa using hinv
  | cons c cs ih =>
    simp only [successfulLoads] at h
    cases hr : c.run off s with
    | error e => simp [hr] at h
    | ok r =>
      simp only [hr] at h
      split at h
      · rename_i hc
        have hfresh : s.heap c.env.HeapAlloc = none := by
          simpa using hc.2
        have := ih (MapAndLoad_step hinv hfresh hr hc.1) h
        simpa using this
      · cases h

theorem LoadedShape_empty (off : Nat) : LoadedShape off emptyRegistry [] :=
  ⟨rfl, rfl, trivial⟩

theorem forward_of_Linked {off : Nat} {s : Registry} {ps : List Nat} {prev : Nat}
    (hfirst : s.IMAGEHLP_pFirstLoadedImage = ps.headD 0) (hL : Linked off s.heap prev ps 0)
    (fuel : Nat) (hfuel : ps.length < fuel) :
    forward off fuel s = .ok ps := by
  cases ps with
  | nil =>
    have : s.IMAGEHLP_pFirstLoadedImage = 0 := by simpa using hfirst
    simp [forward, this]
  | cons p ps =>
    have hp : s.IMAGEHLP_pFirstLoadedImage = p := by simpa using hfirst
    have hp0 : p ≠ 0 := (Linked_mem hL (List.mem_cons_self _ _)).1
    have := Linked_walkFlink hL fuel hfuel
    rw [headLink_cons] at this
    simp [forward, hp, hp0, this]

theorem backward_of_Linked {off : Nat} {s : Registry} {ps : List Nat}
    (hlast : s.IMAGEHLP_pLastLoadedImage = ps.getLastD 0) (hL : Linked off s.heap 0 ps 0)
    (fuel : Nat) (hfuel : ps.length < fuel) :
    backward off fuel s = .ok ps.reverse := by
  rcases List.eq_nil_or_concat ps with rfl | ⟨a, q, rfl⟩
  · have : s.IMAGEHLP_pLastLoadedImage = 0 := by simpa using hlast
    simp [backward, this]
  · rw [List.concat_eq_append] at hlast hL hfuel ⊢
    have hq : s.IMAGEHLP_pLastLoadedImage = q := by rw [hlast, List.getLastD_concat]
    have hq0 : q ≠ 0 := (Linked_mem hL (List.mem_append_right a (List.mem_singleton_self q))).1
    have := Linked_walkBlink hL fuel hfuel
    rw [lastLink_append_singleton] at this
    simp only [backward, hq, hq0, if_false, this]

theorem ImageUnload_miss {off : Nat} {s : Registry} {ls : List Nat} {P : Nat}
    (hchain : FlinkFinite off s ls)
    (hP : s.IMAGEHLP_pFirstLoadedImage = 0 ∨ P = 0 ∨ P + off ∉ ls)
    (fuel : Nat) (hfuel : ls.length < fuel) :
    ImageUnload off fuel s P = .ok ({ s with lastError := ERROR_INVALID_PARAMETER }, false) := by
  by_cases h0 : s.IMAGEHLP_pFirstLoadedImage = 0 ∨ P = 0
  · simp [ImageUnload, h0]
  · have hf : s.IMAGEHLP_pFirstLoadedImage ≠ 0 := fun e => h0 (Or.inl e)
    have hp : P ≠ 0 := fun e => h0 (Or.inr e)
    have hPl : P + off ∉ ls := by
      rcases hP with h | h | h
      · exact absurd h hf
      · exact absurd h hp
      · exact h
    unfold FlinkFinite at hchain
    rw [if_neg hf] at hchain
    have hscan := scan_not_found hchain hPl fuel hfuel
    simp [ImageUnload, hf, hp, hscan, bind, Except.bind, pure, Except.pure]

theorem registryABC_wf : IsRegistry 36 registryABC [1000, 2000, 3000] :=
  ⟨rfl, rfl, by decide, linksOnly 2036 0, rfl, rfl, rfl,
    by decide, linksOnly 3036 1036, rfl, rfl, rfl,
    by decide, linksOnly 0 2036, rfl, rfl, rfl, trivial⟩

theorem append_heap_at {off : Nat} {s s2 : Registry} {p : Nat} {image : LOADED_IMAGE}
    (h : MapAndLoad.append off s (store s.heap p image) p = .ok s2) :
    s2.IMAGEHLP_pLastLoadedImage = p ∧ s2.lastError = s.lastError ∧
    ∃ l, s2.heap p = some { image with Links := l } := by
  unfold MapAndLoad.append at h
  by_cases hl : s.IMAGEHLP_pLastLoadedImage = 0
  · by_cases hf : s.IMAGEHLP_pFirstLoadedImage = 0
    · simp [hl, hf, bind, Except.bind, pure, Except.pure] at h
      subst h
      exact ⟨rfl, rfl, image.Links, by simp [store]⟩
    · simp [hl, hf, bind, Except.bind, pure, Except.pure] at h
      subst h
      exact ⟨rfl, rfl, image.Links, by simp [store]⟩
  · cases hrd : readLinks off (store s.heap p image) (s.IMAGEHLP_pLastLoadedImage + off) with
    | error e => simp [hl, writeFlink, hrd, bind, Except.bind] at h
    | ok rl =>
      have hrd2 : store s.heap p image s.IMAGEHLP_pLastLoadedImage = some rl := by
        simp only [readLinks, Nat.le_add_left, if_true, Nat.add_sub_cancel] at hrd
        split at hrd
        · rename_i r hr
          cases hrd
          exact hr
        · cases hrd
      have key : ∃ l, store (store s.heap p image) s.IMAGEHLP_pLastLoadedImage
          ({ rl with Links := { rl.Links with Flink := p + off } }) p =
            some { image with Links := l } := by
        by_cases hpl : p = s.IMAGEHLP_pLastLoadedImage
        · have : rl = image := by
            rw [← hpl] at hrd2
            simpa [store] using hrd2.symm
          refine ⟨{ image.Links with Flink := p + off }, ?_⟩
          rw [this]
          simp [store, hpl]
        · exact ⟨image.Links, by simp [store, hpl]⟩
      by_cases hf : s.IMAGEHLP_pFirstLoadedImage = 0
      · simp [hl, hf, writeFlink, hrd, bind, Except.bind, pure, Except.pure] at h
        subst h
        exact ⟨rfl, rfl, key⟩
      · simp [hl, hf, writeFlink, hrd, bind, Except.bind, pure, Except.pure] at h
        subst h
        exact ⟨rfl, rfl, key⟩

theorem MapAndLoad_ok_false {off : Nat} {env : Env} {s : Registry}
    {pszImageName pszDllPath : String} {pLoadedImage : Nat} {bDotDll bReadOnly : Bool}
    {r : MapAndLoadResult}
    (h : MapAndLoad off env s pszImageName pszDllPath pLoadedImage bDotDll bReadOnly = .ok r)
    (hret : r.ret = false) :
    r.registry.IMAGEHLP_pFirstLoadedImage = s.IMAGEHLP_pFirstLoadedImage ∧
    r.registry.IMAGEHLP_pLastLoadedImage = s.IMAGEHLP_pLastLoadedImage ∧
    r.registry.heap = s.heap ∧
    ((env.CreateFileA = 0 ∧ r.released = [] ∧ r.registry.lastError = ERROR_FILE_NOT_FOUND) ∨
     (env.CreateFileA ≠ 0 ∧ env.CreateFileMappingA = 0 ∧
        r.released = [Release.CloseHandle env.CreateFileA] ∧
        r.registry.lastError = env.mappingError) ∨
     (env.CreateFileA ≠ 0 ∧ env.CreateFileMappingA ≠ 0 ∧ env.MapViewOfFile = 0 ∧
        r.released =
          [Release.CloseHandle env.CreateFileA, Release.CloseHandle env.CreateFileMappingA] ∧
        r.registry.lastError = env.viewError)) := by
  unfold MapAndLoad at h
  by_cases h1 : env.CreateFileA = 0
  · simp [h1, MapAndLoad.Error] at h
    subst h
    exact ⟨rfl, rfl, rfl, Or.inl ⟨h1, rfl, rfl⟩⟩
  by_cases h2 : env.CreateFileMappingA = 0
  · simp [h1, h2, MapAndLoad.Error] at h
    subst h
    exact ⟨rfl, rfl, rfl, Or.inr (Or.inl ⟨h1, h2, rfl, rfl⟩)⟩
  by_cases h3 : env.MapViewOfFile = 0
  · simp [h1, h2, h3, MapAndLoad.Error] at h
    subst h
    exact ⟨rfl, rfl, rfl, Or.inr (Or.inr ⟨h1, h2, h3, rfl, rfl⟩)⟩
  simp only [h1, h2, h3, if_false] at h
  cases hp : MapAndLoad.populate off env.mem s pszDllPath 0 env.MapViewOfFile env.HeapAlloc with
  | error e => simp [hp, bind, Except.bind] at h
  | ok image =>
    cases ha : MapAndLoad.append off s (store s.heap env.HeapAlloc image) env.HeapAlloc with
    | error e => simp [hp, ha, bind, Except.bind] at h
    | ok s2 =>
      simp [hp, ha, bind, Except.bind, pure, Except.pure] at h
      subst h
      simp at hret

theorem readWORD_readable {mem : Nat → Option Nat} {a : Nat} (h : ReadableWORD mem a) :
    ∃ v, readWORD mem a = .ok v := by
  obtain ⟨h0, h1⟩ := h
  obtain ⟨b0, hb0⟩ := Option.isSome_iff_exists.1 h0
  obtain ⟨b1, hb1⟩ := Option.isSome_iff_exists.1 h1
  exact ⟨b0 % 256 + 256 * (b1 % 256),
    by simp [readWORD, readBYTE, hb0, hb1, bind, Except.bind, pure, Except.pure]⟩

theorem readDWORD_readable {mem : Nat → Option Nat} {a : Nat} (h : ReadableDWORD mem a) :
    ∃ v, readDWORD mem a = .ok v := by
  obtain ⟨h0, h1⟩ := h
  obtain ⟨w0, hw0⟩ := readWORD_readable h0
  obtain ⟨w1, hw1⟩ := readWORD_readable h1
  exact ⟨w0 + 65536 * w1, by simp [readDWORD, hw0, hw1, bind, Except.bind, pure, Except.pure]⟩

theorem ImageNtHeader_ok {mem : Nat → Option Nat} {Base nt : Nat}
    (h : ImageNtHeader mem Base = .ok nt) :
    ∃ e, readDWORD mem (ptrAdd Base OFFSET_e_lfanew) = .ok e ∧ nt = ptrAdd Base e := by
  unfold ImageNtHeader at h
  cases he : readDWORD mem (ptrAdd Base OFFSET_e_lfanew) with
  | error x => simp [he, bind, Except.bind] at h
  | ok e =>
    simp [he, bind, Except.bind, pure, Except.pure] at h
    exact ⟨e, rfl, h.symm⟩

theorem append_total (off : Nat) {s : Registry} {heap1 : Nat → Option LOADED_IMAGE} (p : Nat)
    (htail : s.IMAGEHLP_pLastLoadedImage ≠ 0 → ∃ rl, heap1 s.IMAGEHLP_pLastLoadedImage = some rl) :
    ∃ s2, MapAndLoad.append off s heap1 p = .ok s2 := by
  unfold MapAndLoad.append
  by_cases hl : s.IMAGEHLP_pLastLoadedImage = 0
  · by_cases hf : s.IMAGEHLP_pFirstLoadedImage = 0
    · exact ⟨_, by simp [hl, hf, bind, Except.bind, pure, Except.pure]; rfl⟩
    · exact ⟨_, by simp [hl, hf, bind, Except.bind, pure, Except.pure]; rfl⟩
  · obtain ⟨rl, hrl⟩ := htail hl
    by_cases hf : s.IMAGEHLP_pFirstLoadedImage = 0
    · exact ⟨_, by
        simp [hl, hf, writeFlink, readLinks_add hrl, bind, Except.bind, pure, Except.pure]; rfl⟩
    · exact ⟨_, by
        simp [hl, hf, writeFlink, readLinks_add hrl, bind, Except.bind, pure, Except.pure]; rfl⟩

/-- On a registry that already holds a record, a successful `MapAndLoad`
followed by `ImageUnload` of the record it registered restores the head
pointer, the tail pointer and the forward traversal. -/
theorem MapAndLoad_ImageUnload_nonempty (off : Nat) (cs : List Call) (s : Registry) (c : Call)
    (r : MapAndLoadResult) (hs : successfulLoads off emptyRegistry cs = some s)
    (hne : cs ≠ []) (hfresh : s.heap c.env.HeapAlloc = none)
    (hrun : c.run off s = .ok r) (hret : r.ret = true) (fuel : Nat) (hfuel : cs.length < fuel) :
    ∃ s2, ImageUnload off fuel r.registry c.env.HeapAlloc = .ok (s2, false) ∧
      s2.IMAGEHLP_pFirstLoadedImage = s.IMAGEHLP_pFirstLoadedImage ∧
      s2.IMAGEHLP_pLastLoadedImage = s.IMAGEHLP_pLastLoadedImage ∧
      forward off fuel s2 = forward off fuel s := by
  have hshape := successfulLoads_shape (LoadedShape_empty off) hs
  rw [List.nil_append] at hshape
  have hshape2 := MapAndLoad_step hshape hfresh hrun hret
  obtain ⟨hfirst, hlast, hL⟩ := hshape
  obtain ⟨hfirst2, hlast2, hL2⟩ := hshape2
  have hlen : (cs.map (fun c => c.env.HeapAlloc)).length < fuel := by simpa using hfuel
  have hne2 : cs.map (fun c => c.env.HeapAlloc) ≠ [] := by simpa using hne
  obtain ⟨s2, hrun2, hf2, hl2, -, hL3⟩ :=
    ImageUnload_unlink hfirst2 hlast2 hL2 (fun e => absurd e hne2) fuel hlen
  rw [List.append_nil] at hf2 hl2 hL3
  refine ⟨s2, hrun2, hf2.trans hfirst.symm, hl2.trans hlast.symm, ?_⟩
  rw [forward_of_Linked hf2 hL3 fuel hlen, forward_of_Linked hfirst hL fuel hlen]

/-- On the empty registry, whatever the (non-zero) offset of `Links`, a
successful `MapAndLoad` followed by `ImageUnload` of the record it registered
stores through `&((PLOADED_IMAGE) NULL)->Links`. -/
theorem MapAndLoad_ImageUnload_empty_faults (off : Nat) (hoff : 0 < off) (c : Call)
    (r : MapAndLoadResult) (hrun : c.run off emptyRegistry = .ok r) (hret : r.ret = true)
    (fuel : Nat) :
    ImageUnload off (fuel + 1) r.registry c.env.HeapAlloc = .error Fault.accessViolation := by
  obtain ⟨-, -, -, image, hpop, happ, -⟩ := MapAndLoad_ok_true hrun hret
  obtain ⟨hp0, -, -, -, -, -, -, -, -, -, -, -, -, -, -, -, hlinks⟩ := populate_ok hpop
  have hreg : r.registry = Registry.mk c.env.HeapAlloc c.env.HeapAlloc
      (store emptyRegistry.heap c.env.HeapAlloc image) emptyRegistry.lastError := by
    have : MapAndLoad.append off emptyRegistry (store emptyRegistry.heap c.env.HeapAlloc image)
        c.env.HeapAlloc = .ok (Registry.mk c.env.HeapAlloc c.env.HeapAlloc
          (store emptyRegistry.heap c.env.HeapAlloc image) emptyRegistry.lastError) := by
      simp [MapAndLoad.append, emptyRegistry, bind, Except.bind, pure, Except.pure]
    rw [this] at happ
    exact (Except.ok.inj happ).symm
  have himg : store emptyRegistry.heap c.env.HeapAlloc image c.env.HeapAlloc = some image := by
    simp [store]
  have hnull : store emptyRegistry.heap c.env.HeapAlloc image 0 = none := by
    have : (0 : Nat) ≠ c.env.HeapAlloc := fun e => hp0 e.symm
    simp [store, this, emptyRegistry]
  have hblink : image.Links.Blink = off := by
    rw [hlinks]
    simp [emptyRegistry]
  have hoff0 : off ≠ 0 := by omega
  have hrd0 : readLinks off (store emptyRegistry.heap c.env.HeapAlloc image) off =
      .error Fault.accessViolation := by
    simp [readLinks, hnull]
  have hprev : ImageUnload.relinkPrevious off (Registry.mk c.env.HeapAlloc c.env.HeapAlloc
      (store emptyRegistry.heap c.env.HeapAlloc image) emptyRegistry.lastError)
      (c.env.HeapAlloc + off) = .error Fault.accessViolation := by
    simp only [ImageUnload.relinkPrevious, readLinks_add himg, hblink, bind, Except.bind, ne_eq,
      hoff0, not_false_eq_true, if_true, writeFlink, hrd0]
  have hlink0 : c.env.HeapAlloc + off ≠ 0 := by omega
  rw [hreg]
  simp [ImageUnload, ImageUnload.scan, hp0, hlink0, hprev, bind, Except.bind]

/-- C1, evaluated on the empty registry with `Links` at offset 36:
`MapAndLoad` succeeds and registers the record at 1000, whose `Blink` is
`&((PLOADED_IMAGE) NULL)->Links = 36` instead of `NULL`; the following
`ImageUnload` of that record takes the branch `pCurrent->Blink->Flink = ...`
and stores through the address 36, where no object lives.  The registry is not
brought back to its empty state. -/
theorem MapAndLoad_ImageUnload_empty_registry :
    ∃ r, (callPE 1000).run 36 emptyRegistry = .ok r ∧ r.ret = true ∧
      r.registry.IMAGEHLP_pFirstLoadedImage = 1000 ∧
      r.registry.IMAGEHLP_pLastLoadedImage = 1000 ∧
      (∃ image, r.registry.heap 1000 = some image ∧ image.Links.Blink = 36) ∧
      (∀ fuel, ImageUnload 36 (fuel + 1) r.registry 1000 = .error Fault.accessViolation) ∧
      (∀ fuel res, ImageUnload 36 fuel r.registry 1000 ≠ .ok res) := by
  refine ⟨_, rfl, rfl, rfl, rfl, ⟨_, rfl, rfl⟩, fun fuel => rfl, ?_⟩
  intro fuel res h
  cases fuel with
  | zero => exact Except.noConfusion h
  | succ n => exact Except.noConfusion h

/-- C2: on a well-formed registry holding the records `ps`, `ImageUnload(R)`
for a record `R` of it removes exactly `R`: the forward traversal from the head
is `ps` with `R` deleted, the backward traversal from the tail is the reverse
of that, and the registry is again well formed.  If `R` had no previous
neighbour its next record is the new head, if it had no next neighbour its
previous record is the new tail, and if `R` was the only record both pointers
are `NULL`. -/
theorem ImageUnload_removes_exactly (off : Nat) (s : Registry) (ps : List Nat) (R : Nat)
    (hwf : IsRegistry off s ps) (hR : R ∈ ps) (fuel : Nat) (hfuel : ps.length < fuel) :
    ∃ s2, ImageUnload off fuel s R = .ok (s2, false) ∧
      IsRegistry off s2 (ps.erase R) ∧
      forward off fuel s2 = .ok (ps.erase R) ∧
      backward off fuel s2 = .ok (ps.erase R).reverse ∧
      (∀ pre post, ps = pre ++ R :: post →
        (pre = [] → s2.IMAGEHLP_pFirstLoadedImage = post.headD 0) ∧
        (post = [] → s2.IMAGEHLP_pLastLoadedImage = pre.getLastD 0)) ∧
      (ps = [R] → s2.IMAGEHLP_pFirstLoadedImage = 0 ∧ s2.IMAGEHLP_pLastLoadedImage = 0) := by
  obtain ⟨hfirst, hlast, hL⟩ := hwf
  have hnd := Linked_nodup hL
  obtain ⟨pre, post, hRpre, hps, herase⟩ := List.exists_erase_eq hR
  subst hps
  have hlen : pre.length < fuel := by
    simp only [List.length_append, List.length_cons] at hfuel
    omega
  obtain ⟨s2, hrun, hf2, hl2, -, hL2⟩ :=
    ImageUnload_unlink hfirst hlast hL (fun _ => rfl) fuel hlen
  have hlen2 : (pre ++ post).length < fuel := by
    simp only [List.length_append, List.length_cons] at hfuel ⊢
    omega
  rw [← herase] at hf2 hl2 hL2 hlen2
  refine ⟨s2, hrun, ⟨hf2, hl2, hL2⟩, forward_of_Linked hf2 hL2 fuel hlen2,
    backward_of_Linked hl2 hL2 fuel hlen2, ?_, ?_⟩
  · intro pre2 post2 h2
    rw [h2] at hf2 hl2 hnd
    constructor
    · rintro rfl
      simpa using hf2
    · rintro rfl
      have hRpre2 : R ∉ pre2 := fun hmem =>
        (List.nodup_append.1 hnd).2.2 hmem (List.mem_singleton_self R)
      rw [List.erase_append_right _ hRpre2] at hl2
      simpa using hl2
  · intro h1
    rw [h1] at hf2 hl2
    constructor
    · simpa using hf2
    · simpa using hl2

/-- Witness of C2: unloading the middle record of `registryABC`. -/
theorem ImageUnload_removes_exactly_witness :
    ∃ s2, ImageUnload 36 4 registryABC 2000 = .ok (s2, false) ∧
      IsRegistry 36 s2 [1000, 3000] ∧
      forward 36 4 s2 = .ok [1000, 3000] ∧
      backward 36 4 s2 = .ok [3000, 1000] ∧
      (∀ pre post, [1000, 2000, 3000] = pre ++ 2000 :: post →
        (pre = [] → s2.IMAGEHLP_pFirstLoadedImage = post.headD 0) ∧
        (post = [] → s2.IMAGEHLP_pLastLoadedImage = pre.getLastD 0)) ∧
      ([1000, 2000, 3000] = [2000] →
        s2.IMAGEHLP_pFirstLoadedImage = 0 ∧ s2.IMAGEHLP_pLastLoadedImage = 0) :=
  ImageUnload_removes_exactly 36 registryABC [1000, 2000, 3000] 2000 registryABC_wf
    (by decide) 4 (by decide)

/-- C3: starting from the empty registry, after any sequence of successful
calls of `MapAndLoad`, following `Flink` from `IMAGEHLP_pFirstLoadedImage`
visits the registered records in the order of the calls and then reaches
`NULL` (the `Flink` of the last record is `NULL`), and
`IMAGEHLP_pLastLoadedImage` is the record loaded last. -/
theorem MapAndLoad_keeps_insertion_order (off : Nat) (cs : List Call) (s : Registry)
    (h : successfulLoads off emptyRegistry cs = some s) (fuel : Nat) (hfuel : cs.length < fuel) :
    forward off fuel s = .ok (cs.map (fun c => c.env.HeapAlloc)) ∧
    s.IMAGEHLP_pFirstLoadedImage = (cs.map (fun c => c.env.HeapAlloc)).headD 0 ∧
    s.IMAGEHLP_pLastLoadedImage = (cs.map (fun c => c.env.HeapAlloc)).getLastD 0 ∧
    (∀ p, (cs.map (fun c => c.env.HeapAlloc)).getLast? = some p →
      ∃ r, s.heap p = some r ∧ r.Links.Flink = 0) := by
  have hshape := successfulLoads_shape (LoadedShape_empty off) h
  rw [List.nil_append] at hshape
  obtain ⟨hfirst, hlast, hL⟩ := hshape
  refine ⟨forward_of_Linked hfirst hL fuel (by simpa using hfuel), hfirst, hlast, ?_⟩
  intro p hp
  rcases List.eq_nil_or_concat (cs.map (fun c => c.env.HeapAlloc)) with he | ⟨a, q, he⟩
  · rw [he] at hp
    cases hp
  · rw [he, List.concat_eq_append] at hp hL
    have hqp : q = p := by simpa using hp
    subst hqp
    obtain ⟨-, -, r, hr, -, hf, -⟩ := (Linked_append a [q] off 0).1 hL
    exact ⟨r, hr, hf⟩

/-- Witness of C3: three successful loads registering the records 1000, 2000
and 3000. -/
theorem MapAndLoad_keeps_insertion_order_witness :
    ∃ s, successfulLoads 36 emptyRegistry [callPE 1000, callPE 2000, callPE 3000] = some s ∧
      forward 36 4 s = .ok [1000, 2000, 3000] ∧
      s.IMAGEHLP_pFirstLoadedImage = 1000 ∧
      s.IMAGEHLP_pLastLoadedImage = 3000 ∧
      (∀ p, [1000, 2000, 3000].getLast? = some p →
        ∃ r, s.heap p = some r ∧ r.Links.Flink = 0) :=
  ⟨_, rfl, MapAndLoad_keeps_insertion_order 36 [callPE 1000, callPE 2000, callPE 3000] _ rfl 4
    (by decide)⟩

/-- C4: on a registry whose `Flink` chain from the head is finite and
`NULL`-terminated (its entries are `ls`), when the registry is empty, or `P` is
`NULL`, or `P` is none of the records on that chain, `ImageUnload(P)`
terminates, returns `FALSE`, sets the last error to `ERROR_INVALID_PARAMETER`
and leaves the head pointer, the tail pointer and every record unchanged. -/
theorem ImageUnload_not_registered (off : Nat) (s : Registry) (ls : List Nat) (P : Nat)
    (hchain : FlinkFinite off s ls)
    (hP : s.IMAGEHLP_pFirstLoadedImage = 0 ∨ P = 0 ∨ P ∉ ls.map (CONTAINING_RECORD off))
    (fuel : Nat) (hfuel : ls.length < fuel) :
    ∃ s2, ImageUnload off fuel s P = .ok (s2, false) ∧
      s2.lastError = ERROR_INVALID_PARAMETER ∧
      s2.IMAGEHLP_pFirstLoadedImage = s.IMAGEHLP_pFirstLoadedImage ∧
      s2.IMAGEHLP_pLastLoadedImage = s.IMAGEHLP_pLastLoadedImage ∧
      s2.heap = s.heap := by
  refine ⟨{ s with lastError := ERROR_INVALID_PARAMETER }, ?_, rfl, rfl, rfl, rfl⟩
  apply ImageUnload_miss hchain _ fuel hfuel
  rcases hP with h | h | h
  · exact Or.inl h
  · exact Or.inr (Or.inl h)
  · refine Or.inr (Or.inr (fun hmem => h ?_))
    exact List.mem_map.2 ⟨P + off, hmem, CONTAINING_RECORD_add off P⟩

/-- Witness of C4: unloading a record at 4000 that was never registered in
`registryABC`. -/
theorem ImageUnload_not_registered_witness :
    ∃ s2, ImageUnload 36 4 registryABC 4000 = .ok (s2, false) ∧
      s2.lastError = ERROR_INVALID_PARAMETER ∧
      s2.IMAGEHLP_pFirstLoadedImage = registryABC.IMAGEHLP_pFirstLoadedImage ∧
      s2.IMAGEHLP_pLastLoadedImage = registryABC.IMAGEHLP_pLastLoadedImage ∧
      s2.heap = registryABC.heap :=
  ImageUnload_not_registered 36 registryABC [1036, 2036, 3036] 4000
    ⟨rfl, by decide, linksOnly 2036 0, rfl, rfl, by decide, linksOnly 3036 1036, rfl,
      rfl, by decide, linksOnly 0 2036, rfl, rfl⟩
    (Or.inr (Or.inr (by decide))) 4 (by decide)

/-- C5 as stated fails: when `CreateFileA` and `CreateFileMappingA` succeed
and `MapViewOfFile` fails, `MapAndLoad` returns `FALSE` having closed the file
handle (3) first and the mapping handle (4) second; the mapping handle is not
released before the file handle. -/
theorem MapAndLoad_closes_file_handle_first :
    ∃ r, MapAndLoad 36 envViewFails emptyRegistry "calc.exe" "bin" 0 false true = .ok r ∧
      r.ret = false ∧
      r.released = [Release.CloseHandle 3, Release.CloseHandle 4] ∧
      ¬ releasedBefore r.released (Release.CloseHandle 4) (Release.CloseHandle 3) :=
  ⟨_, rfl, rfl, rfl, by decide⟩

/-- C5, amended: whenever `MapAndLoad` returns `FALSE`, head pointer, tail
pointer and records of the registry are unchanged, nothing is released twice,
only handles acquired during the call are released, and each of them is
released: the file handle if `CreateFileA` succeeded, the mapping handle if
`CreateFileMappingA` succeeded as well.  In that last case `MapViewOfFile` has
failed, so no view exists, and the file handle was closed before the mapping
handle. -/
theorem MapAndLoad_failure_releases (off : Nat) (env : Env) (s : Registry)
    (pszImageName pszDllPath : String) (pLoadedImage : Nat) (bDotDll bReadOnly : Bool)
    (r : MapAndLoadResult)
    (h : MapAndLoad off env s pszImageName pszDllPath pLoadedImage bDotDll bReadOnly = .ok r)
    (hret : r.ret = false)
    (hdistinct : env.CreateFileA ≠ 0 → env.CreateFileMappingA ≠ env.CreateFileA) :
    r.registry.IMAGEHLP_pFirstLoadedImage = s.IMAGEHLP_pFirstLoadedImage ∧
    r.registry.IMAGEHLP_pLastLoadedImage = s.IMAGEHLP_pLastLoadedImage ∧
    r.registry.heap = s.heap ∧
    r.released.Nodup ∧
    (∀ x ∈ r.released,
      (x = Release.CloseHandle env.CreateFileA ∧ env.CreateFileA ≠ 0) ∨
      (x = Release.CloseHandle env.CreateFileMappingA ∧ env.CreateFileA ≠ 0 ∧
        env.CreateFileMappingA ≠ 0)) ∧
    (env.CreateFileA ≠ 0 → Release.CloseHandle env.CreateFileA ∈ r.released) ∧
    (env.CreateFileA ≠ 0 → env.CreateFileMappingA ≠ 0 →
      Release.CloseHandle env.CreateFileMappingA ∈ r.released ∧
      env.MapViewOfFile = 0 ∧
      releasedBefore r.released (Release.CloseHandle env.CreateFileA)
        (Release.CloseHandle env.CreateFileMappingA)) := by
  obtain ⟨hf, hl, hh, hcase⟩ := MapAndLoad_ok_false h hret
  refine ⟨hf, hl, hh, ?_⟩
  rcases hcase with ⟨h1, hrel, -⟩ | ⟨h1, h2, hrel, -⟩ | ⟨h1, h2, h3, hrel, -⟩
  · rw [hrel]
    exact ⟨List.nodup_nil, by simp, fun h => absurd h1 h, fun h => absurd h1 h⟩
  · rw [hrel]
    refine ⟨by simp, ?_, by simp, fun _ h => absurd h2 h⟩
    intro x hx
    exact Or.inl ⟨by simpa using hx, h1⟩
  · have hne : Release.CloseHandle env.CreateFileA ≠
        Release.CloseHandle env.CreateFileMappingA := by
      intro e
      injection e with e
      exact hdistinct h1 e.symm
    rw [hrel]
    refine ⟨by simp [hne], ?_, by simp, fun _ _ => ⟨by simp, h3, ?_⟩⟩
    · intro x hx
      rcases List.mem_cons.1 hx with e | hx
      · exact Or.inl ⟨e, h1⟩
      · exact Or.inr ⟨by simpa using hx, h1, h2⟩
    · unfold releasedBefore
      have hne2 : env.CreateFileA ≠ env.CreateFileMappingA := fun e => hdistinct h1 e.symm
      simp [List.indexOf_cons, hne2]

/-- Witness of C5, amended: `MapViewOfFile` fails after the two handles 3 and
4 were obtained. -/
theorem MapAndLoad_failure_releases_witness :
    ∃ r, MapAndLoad 36 envViewFails emptyRegistry "calc.exe" "bin" 0 false true = .ok r ∧
    r.registry.IMAGEHLP_pFirstLoadedImage = 0 ∧
    r.registry.IMAGEHLP_pLastLoadedImage = 0 ∧
    r.registry.heap = emptyRegistry.heap ∧
    r.released.Nodup ∧
    (∀ x ∈ r.released,
      (x = Release.CloseHandle 3 ∧ (3 : Nat) ≠ 0) ∨
      (x = Release.CloseHandle 4 ∧ (3 : Nat) ≠ 0 ∧ (4 : Nat) ≠ 0)) ∧
    ((3 : Nat) ≠ 0 → Release.CloseHandle 3 ∈ r.released) ∧
    ((3 : Nat) ≠ 0 → (4 : Nat) ≠ 0 →
      Release.CloseHandle 4 ∈ r.released ∧
      envViewFails.MapViewOfFile = 0 ∧
      releasedBefore r.released (Release.CloseHandle 3) (Release.CloseHandle 4)) :=
  ⟨_, rfl, MapAndLoad_failure_releases 36 envViewFails emptyRegistry "calc.exe" "bin" 0 false
    true _ rfl rfl (fun _ => by decide)⟩

/-- C6 as stated fails: the image `peView`, mapped at 4194304, has its NT
header at 4194432 and its first section header, `firstSection`, at
(4194432 + 24) + 224 = 4194680.  The RVA 6144 lies in the middle of that
section's virtual range, yet `ImageRvaToSection` does not return the address of
the first section header and `ImageRvaToVa` does not return the specified
address: both return `NULL`. -/
theorem ImageRvaToVa_returns_NULL_in_first_section :
    ImageNtHeader peView 4194304 = .ok 4194432 ∧
    readWORD peView (ptrAdd 4194432 OFFSET_SizeOfOptionalHeader) = .ok 224 ∧
    readSectionHeader peView (ptrAdd (ptrAdd 4194432 OFFSET_OptionalHeader) 224) =
      .ok firstSection ∧
    (firstSection.VirtualAddress ≤ 6144 ∧
      6144 < firstSection.VirtualAddress + firstSection.VirtualSize) ∧
    (ImageRvaToSection emptyRegistry 4194432 4194304 6144).2 ≠
      ptrAdd (ptrAdd 4194432 OFFSET_OptionalHeader) 224 ∧
    (ImageRvaToVa emptyRegistry 4194432 4194304 6144 0).2 ≠
      specifiedVa 4194304 6144 firstSection ∧
    (ImageRvaToSection emptyRegistry 4194432 4194304 6144).2 = 0 ∧
    (ImageRvaToVa emptyRegistry 4194432 4194304 6144 0).2 = 0 :=
  ⟨rfl, rfl, rfl, by decide, by decide, by decide, rfl, rfl⟩

/-- C6, amended: `ImageRvaToSection` and `ImageRvaToVa` are stubs.  For every
NT header, base, RVA and cached section they return `NULL`, set the last error
to `ERROR_CALL_NOT_IMPLEMENTED` and change nothing else; no section is looked
up and no address is translated. -/
theorem ImageRvaToVa_is_a_stub (s : Registry) (NtHeaders Base Rva LastRvaSection : Nat) :
    ImageRvaToSection s NtHeaders Base Rva =
      ({ s with lastError := ERROR_CALL_NOT_IMPLEMENTED }, 0) ∧
    ImageRvaToVa s NtHeaders Base Rva LastRvaSection =
      ({ s with lastError := ERROR_CALL_NOT_IMPLEMENTED }, 0) :=
  ⟨rfl, rfl⟩

/-- C7 as stated fails: for the 64-byte file whose DOS header has
`e_lfanew = 4` the NT header (248 bytes at offset 4) does not fit into the
file, yet `MapAndLoad` returns `TRUE` and registers a record with
`FileHeader = Base + 4`.  When nothing beyond the 64 bytes is readable the call
does not return `FALSE` either: it reads `SizeOfImage` at offset 84 and
faults. -/
theorem MapAndLoad_accepts_truncated_header :
    readDWORD truncatedView (ptrAdd 65536 OFFSET_e_lfanew) = .ok 4 ∧
    ¬ (4 + SIZEOF_IMAGE_NT_HEADERS ≤ 64) ∧
    (∃ r image, callTruncated.run 36 emptyRegistry = .ok r ∧ r.ret = true ∧
      r.registry.IMAGEHLP_pFirstLoadedImage = 1000 ∧
      r.registry.IMAGEHLP_pLastLoadedImage = 1000 ∧
      r.registry.heap 1000 = some image ∧ image.FileHeader = 65536 + 4) ∧
    MapAndLoad 36 (envOK truncatedViewStrict 65536 1000) emptyRegistry "short.exe" "bin" 0
      false true = .error Fault.accessViolation :=
  ⟨rfl, by decide, ⟨_, _, rfl, rfl, rfl, rfl, rfl, rfl⟩, rfl⟩

/-- C7, amended: `MapAndLoad` does not check that the NT header lies within
the mapped region.  Whenever `CreateFileA`, `CreateFileMappingA`,
`MapViewOfFile` and `HeapAlloc` succeed, the tail record (if any) is live and
the header fields the function reads (`e_lfanew`, and `SizeOfOptionalHeader`,
`NumberOfSections`, `SizeOfImage`, `Characteristics` of the NT header at
`Base + e_lfanew`) are readable, it returns `TRUE` and appends a record whose
`FileHeader` is `ImageNtHeader(Base)`, whatever `e_lfanew` is. -/
theorem MapAndLoad_no_bounds_check (off : Nat) (env : Env) (s : Registry)
    (pszImageName pszDllPath : String) (pLoadedImage : Nat) (bDotDll bReadOnly : Bool)
    (h1 : env.CreateFileA ≠ 0) (h2 : env.CreateFileMappingA ≠ 0) (h3 : env.MapViewOfFile ≠ 0)
    (hp : env.HeapAlloc ≠ 0)
    (htail : s.IMAGEHLP_pLastLoadedImage ≠ 0 → ∃ rl, s.heap s.IMAGEHLP_pLastLoadedImage = some rl)
    (he : ReadableDWORD env.mem (ptrAdd env.MapViewOfFile OFFSET_e_lfanew))
    (hfields : ∀ nt, ImageNtHeader env.mem env.MapViewOfFile = .ok nt →
      ReadableWORD env.mem (ptrAdd nt OFFSET_SizeOfOptionalHeader) ∧
      ReadableWORD env.mem (ptrAdd nt OFFSET_NumberOfSections) ∧
      ReadableDWORD env.mem (ptrAdd nt OFFSET_SizeOfImage) ∧
      ReadableWORD env.mem (ptrAdd nt OFFSET_Characteristics)) :
    ∃ r image,
      MapAndLoad off env s pszImageName pszDllPath pLoadedImage bDotDll bReadOnly = .ok r ∧
      r.ret = true ∧
      r.registry.IMAGEHLP_pLastLoadedImage = env.HeapAlloc ∧
      r.registry.heap env.HeapAlloc = some image ∧
      ImageNtHeader env.mem env.MapViewOfFile = .ok image.FileHeader := by
  obtain ⟨e, hre⟩ := readDWORD_readable he
  have hnt : ImageNtHeader env.mem env.MapViewOfFile = .ok (ptrAdd env.MapViewOfFile e) := by
    simp [ImageNtHeader, hre, bind, Except.bind, pure, Except.pure]
  obtain ⟨hsz, hns, hsi, hch⟩ := hfields _ hnt
  obtain ⟨sz, hsz⟩ := readWORD_readable hsz
  obtain ⟨ns, hns⟩ := readWORD_readable hns
  obtain ⟨si, hsi⟩ := readDWORD_readable hsi
  obtain ⟨ch, hch⟩ := readWORD_readable hch
  obtain ⟨image, hpop⟩ : ∃ image, MapAndLoad.populate off env.mem s pszDllPath 0
      env.MapViewOfFile env.HeapAlloc = .ok image := by
    simp [MapAndLoad.populate, hnt, hp, hsz, hns, hsi, hch, bind, Except.bind, pure,
      Except.pure]
  obtain ⟨-, nt2, -, hnt2, -, -, -, -, -, -, -, hfh, -⟩ := populate_ok hpop
  have htail2 : s.IMAGEHLP_pLastLoadedImage ≠ 0 →
      ∃ rl, store s.heap env.HeapAlloc image s.IMAGEHLP_pLastLoadedImage = some rl := by
    intro hl
    obtain ⟨rl, hrl⟩ := htail hl
    by_cases hpe : s.IMAGEHLP_pLastLoadedImage = env.HeapAlloc
    · exact ⟨image, by simp [store, hpe]⟩
    · exact ⟨rl, by simp [store, hpe, hrl]⟩
  obtain ⟨s2, happ⟩ := append_total off env.HeapAlloc htail2
  obtain ⟨hlast, -, l, hheap⟩ := append_heap_at happ
  refine ⟨{ registry := s2, ret := true, released := [Release.CloseHandle env.CreateFileA,
    Release.CloseHandle env.CreateFileMappingA] }, { image with Links := l }, ?_, rfl, hlast,
    hheap, ?_⟩
  · simp [MapAndLoad, h1, h2, h3, hpop, happ, bind, Except.bind, pure, Except.pure]
  · rw [hnt2]
    exact congrArg Except.ok hfh.symm

/-- Witness of C7, amended: the 64-byte file with `e_lfanew = 4`, loaded into
the empty registry. -/
theorem MapAndLoad_no_bounds_check_witness :
    ∃ r image,
      MapAndLoad 36 (envOK truncatedView 65536 1000) emptyRegistry "short.exe" "bin" 0 false
        true = .ok r ∧
      r.ret = true ∧
      r.registry.IMAGEHLP_pLastLoadedImage = 1000 ∧
      r.registry.heap 1000 = some image ∧
      ImageNtHeader truncatedView 65536 = .ok image.FileHeader :=
  MapAndLoad_no_bounds_check 36 (envOK truncatedView 65536 1000) emptyRegistry "short.exe"
    "bin" 0 false true (by decide) (by decide) (by decide) (by decide)
    (fun h => absurd rfl h) ⟨⟨rfl, rfl⟩, ⟨rfl, rfl⟩⟩
    (fun nt hnt => by
      have e : nt = 65540 := (Except.ok.inj hnt).symm
      subst e
      exact ⟨⟨rfl, rfl⟩, ⟨rfl, rfl⟩, ⟨⟨rfl, rfl⟩, ⟨rfl, rfl⟩⟩, ⟨rfl, rfl⟩⟩)

/-- C9, evaluated on `MapAndLoad("calc.exe", "bin", ...)`: the call succeeds
and the `ModuleName` of the record it registers holds a copy of `pszDllPath`
("bin"), not of `pszImageName` ("calc.exe"). -/
theorem MapAndLoad_ModuleName_copies_DllPath :
    ∃ r image, (callPE 1000).run 36 emptyRegistry = .ok r ∧ r.ret = true ∧
      r.registry.IMAGEHLP_pLastLoadedImage = 1000 ∧
      r.registry.heap 1000 = some image ∧
      image.ModuleName = (callPE 1000).pszDllPath ∧
      image.ModuleName = "bin" ∧
      image.ModuleName ≠ (callPE 1000).pszImageName :=
  ⟨_, _, rfl, rfl, rfl, rfl, rfl, rfl, by decide⟩

/-- C10: after a successful `MapAndLoad` over a view mapped at `Base`
(the address `MapViewOfFile` returned), the record it registered (the new tail,
at the address `HeapAlloc` returned) has `MappedAddress = Base`,
`FileHeader = ImageNtHeader(Base) = Base + e_lfanew`,
`Sections = (FileHeader + 24) + FileHeader.SizeOfOptionalHeader`,
`NumberOfSections`, `SizeOfImage` and `Characteristics` as read from the NT
header, and `LastRvaSection = Sections`.  Additions are those of 32-bit
pointers. -/
theorem MapAndLoad_record_fields (off : Nat) (env : Env) (s : Registry)
    (pszImageName pszDllPath : String) (pLoadedImage : Nat) (bDotDll bReadOnly : Bool)
    (r : MapAndLoadResult)
    (h : MapAndLoad off env s pszImageName pszDllPath pLoadedImage bDotDll bReadOnly = .ok r)
    (hret : r.ret = true) :
    ∃ image e_lfanew SizeOfOptionalHeader,
      r.registry.IMAGEHLP_pLastLoadedImage = env.HeapAlloc ∧
      r.registry.heap env.HeapAlloc = some image ∧
      image.MappedAddress = env.MapViewOfFile ∧
      ImageNtHeader env.mem env.MapViewOfFile = .ok image.FileHeader ∧
      readDWORD env.mem (ptrAdd env.MapViewOfFile OFFSET_e_lfanew) = .ok e_lfanew ∧
      image.FileHeader = ptrAdd env.MapViewOfFile e_lfanew ∧
      readWORD env.mem (ptrAdd image.FileHeader OFFSET_SizeOfOptionalHeader) =
        .ok SizeOfOptionalHeader ∧
      image.Sections = ptrAdd (ptrAdd image.FileHeader 24) SizeOfOptionalHeader ∧
      readWORD env.mem (ptrAdd image.FileHeader OFFSET_NumberOfSections) =
        .ok image.NumberOfSections ∧
      readDWORD env.mem (ptrAdd image.FileHeader OFFSET_SizeOfImage) = .ok image.SizeOfImage ∧
      readWORD env.mem (ptrAdd image.FileHeader OFFSET_Characteristics) =
        .ok image.Characteristics ∧
      image.LastRvaSection = image.Sections := by
  obtain ⟨-, -, -, image, hpop, happ, -⟩ := MapAndLoad_ok_true h hret
  obtain ⟨-, nt, sz, hnt, hsz, hns, hsi, hch, -, -, hma, hfh, hsec, hlrs, -, -, -⟩ :=
    populate_ok hpop
  obtain ⟨hlast, -, l, hheap⟩ := append_heap_at happ
  obtain ⟨e, hre, hnte⟩ := ImageNtHeader_ok hnt
  refine ⟨{ image with Links := l }, e, sz, hlast, hheap, hma, ?_, hre, ?_, ?_, ?_, ?_, ?_, ?_,
    hlrs⟩
  · show ImageNtHeader env.mem env.MapViewOfFile = .ok image.FileHeader
    rw [hfh, hnt]
  · show image.FileHeader = _
    rw [hfh, hnte]
  · show readWORD env.mem (ptrAdd image.FileHeader OFFSET_SizeOfOptionalHeader) = _
    rw [hfh, hsz]
  · show image.Sections = ptrAdd (ptrAdd image.FileHeader 24) sz
    rw [hsec, hfh]
    rfl
  · show readWORD env.mem (ptrAdd image.FileHeader OFFSET_NumberOfSections) = _
    rw [hfh, hns]
  · show readDWORD env.mem (ptrAdd image.FileHeader OFFSET_SizeOfImage) = _
    rw [hfh, hsi]
  · show readWORD env.mem (ptrAdd image.FileHeader OFFSET_Characteristics) = _
    rw [hfh, hch]

/-- Witness of C10: the image `peView` mapped at 4194304, loaded into the
empty registry; the record has `FileHeader = Base + 128`,
`Sections = Base + 128 + 24 + 224`, one section, `SizeOfImage = 32768` and
`Characteristics = 271`. -/
theorem MapAndLoad_record_fields_witness :
    ∃ r, (callPE 1000).run 36 emptyRegistry = .ok r ∧ r.ret = true ∧
      (∃ image, r.registry.heap 1000 = some image ∧ image.MappedAddress = 4194304 ∧
        image.FileHeader = 4194432 ∧ image.Sections = 4194680 ∧
        image.NumberOfSections = 1 ∧ image.SizeOfImage = 32768 ∧
        image.Characteristics = 271 ∧ image.LastRvaSection = 4194680) ∧
      ∃ image e_lfanew SizeOfOptionalHeader,
        r.registry.IMAGEHLP_pLastLoadedImage = 1000 ∧
        r.registry.heap 1000 = some image ∧
        image.MappedAddress = 4194304 ∧
        ImageNtHeader peView 4194304 = .ok image.FileHeader ∧
        readDWORD peView (ptrAdd 4194304 OFFSET_e_lfanew) = .ok e_lfanew ∧
        image.FileHeader = ptrAdd 4194304 e_lfanew ∧
        readWORD peView (ptrAdd image.FileHeader OFFSET_SizeOfOptionalHeader) =
          .ok SizeOfOptionalHeader ∧
        image.Sections = ptrAdd (ptrAdd image.FileHeader 24) SizeOfOptionalHeader ∧
        readWORD peView (ptrAdd image.FileHeader OFFSET_NumberOfSections) =
          .ok image.NumberOfSections ∧
        readDWORD peView (ptrAdd image.FileHeader OFFSET_SizeOfImage) = .ok image.SizeOfImage ∧
        readWORD peView (ptrAdd image.FileHeader OFFSET_Characteristics) =
          .ok image.Characteristics ∧
        image.LastRvaSection = image.Sections :=
  ⟨_, rfl, rfl, ⟨_, rfl, rfl, rfl, rfl, rfl, rfl, rfl, rfl⟩,
    MapAndLoad_record_fields 36 (callPE 1000).env emptyRegistry "calc.exe" "bin" 0 false true _
      rfl rfl⟩

end Imagehlp
